import Mathlib

/-!
Tree-sitter query predicates (`src/treesitter/predicates.cpp`)

A shallow embedding of the predicate evaluator of knut: the registry of
named predicates (`filters`), the compile-time validators
(`checkPredicate`, `checkFilter_*`), the argument resolver
(`matchArguments`), the run-time evaluators (`filter_*`) and the dispatch
loop (`filterMatch`).

`QString` is `String`, `QVector` is `List`, `uint32_t` ids and positions are
`Nat` (they are only compared), `std::optional` is `Option`.  The evaluator
object `Predicates` is a record; a `const` member function that writes the
`mutable` cache store returns the new record next to its result.
`QRegularExpression` and the query cursor are libraries outside
`predicates.cpp`; they are parameters of the embedding.
-/

namespace treesitter

/-! ## Data model -/

/-- Modelled from the spec: `Node` is declared in `node.h`, which is not part of the
sources at hand.  A node exposes a start and an end position in the source buffer. -/
structure Node where
  startPosition : Nat
  endPosition : Nat
deriving DecidableEq, Repr

/-- Modelled from the spec: `Node::textIn` (defined in `node.cpp`, not at hand) extracts
the substring of the given source buffer spanned by the node's positions. -/
def Node.textIn (n : Node) (source : String) : String :=
  String.mk ((source.data.drop n.startPosition).take (n.endPosition - n.startPosition))

/-- The `Query::Capture` of the source: a capture slot of a compiled query; only its `id` is read. -/
structure Query.Capture where
  id : Nat
deriving DecidableEq, Repr

/-- One declared argument: `std::variant<Query::Capture, QString>`. -/
inductive Argument where
  | capture (c : Query.Capture)
  | string (s : String)
deriving DecidableEq, Repr

/-- The alias `Predicates::PredicateArguments`. -/
abbrev PredicateArguments := List Argument

/-- The `Query::Predicate` of the source: a name and its declared arguments. -/
structure Query.Predicate where
  name : String
  arguments : PredicateArguments
deriving DecidableEq, Repr

/-- The `Query::Pattern` of the source: only the attached predicates are read here. -/
structure Query.Pattern where
  predicates : List Query.Predicate
deriving DecidableEq, Repr

/-- A compiled query, seen through `patterns()`. -/
structure Query where
  patterns : List Query.Pattern
deriving DecidableEq, Repr

/-- The `QueryMatch::Capture` of the source: a slot id bound to a node. -/
structure QueryMatch.Capture where
  id : Nat
  node : Node
deriving DecidableEq, Repr

/-- One match of a pattern: `query()`, `patternIndex()` and `captures()`. -/
structure QueryMatch where
  query : Query
  patternIndex : Nat
  captures : List QueryMatch.Capture
deriving DecidableEq, Repr

/-- The `Predicates::MissingCapture` of the source: the referenced slot had no binding. -/
structure MissingCapture where
  capture : Query.Capture
deriving DecidableEq, Repr

/-- One resolved argument:
`std::variant<QString, QueryMatch::Capture, Predicates::MissingCapture>`. -/
inductive MatchedArgument where
  | string (s : String)
  | capture (c : QueryMatch.Capture)
  | missing (mc : MissingCapture)
deriving DecidableEq, Repr

/-- The cache entries derived from `PredicateCache`; `MessageMapCache` is the only
subclass the source defines. -/
inductive PredicateCache where
  | MessageMapCache (m_begin m_end : Node)
deriving DecidableEq, Repr

/-- The evaluator object: `m_source`, `m_rootNode` and the mutable `m_caches`. -/
structure Predicates where
  m_source : String
  m_rootNode : Option Node
  m_caches : List PredicateCache
deriving DecidableEq, Repr

/-! ## External collaborators -/

/-- The two operations of `QRegularExpression` the source uses:
`QRegularExpression(p).isValid()` and `QRegularExpression(p).match(s).hasMatch()`. -/
structure RegexEngine where
  isValid : String → Bool
  hasMatch : String → String → Bool

/-- The query machinery `findMessageMap` calls: `nextMatch source root` is the result of
executing the fixed message-map query on `root` with a fresh `Predicates(source)` and
taking `cursor.nextMatch()`; `capturesNamed` is `QueryMatch::capturesNamed`. -/
structure QueryEngine where
  nextMatch : String → Node → Option QueryMatch
  capturesNamed : QueryMatch → String → List QueryMatch.Capture

/-! ## Construction and configuration -/

/-- The constructor `Predicates::Predicates(source)`. -/
def Predicates.create (source : String) : Predicates :=
  ⟨source, none, []⟩

/-- The setter `Predicates::setRootNode`. -/
def setRootNode (self : Predicates) (node : Node) : Predicates :=
  ⟨self.m_source, some node, self.m_caches⟩

/-! ## Argument resolver -/

/-- The inner loop of `matchArguments`: append every capture of the match whose id is
the referenced one, and remember whether there was any. -/
def matchArguments.scan (id : Nat) :
    List QueryMatch.Capture → List MatchedArgument × Bool → List MatchedArgument × Bool
  | [], acc => acc
  | capture :: rest, (result, found) =>
    if capture.id = id then
      matchArguments.scan id rest (result ++ [MatchedArgument.capture capture], true)
    else
      matchArguments.scan id rest (result, found)

/-- The outer loop of `matchArguments`, threading `result`. -/
def matchArguments.go (m : QueryMatch) :
    List Argument → List MatchedArgument → List MatchedArgument
  | [], result => result
  | Argument.string s :: rest, result =>
    matchArguments.go m rest (result ++ [MatchedArgument.string s])
  | Argument.capture captureArgument :: rest, result =>
    match matchArguments.scan captureArgument.id m.captures (result, false) with
    | (result1, true) => matchArguments.go m rest result1
    | (result1, false) =>
      matchArguments.go m rest (result1 ++ [MatchedArgument.missing ⟨captureArgument⟩])

/-- The resolver `Predicates::matchArguments`. -/
def matchArguments (m : QueryMatch) (arguments : PredicateArguments) : List MatchedArgument :=
  matchArguments.go m arguments []

/-! ## Validators -/

/-- The validator `Predicates::checkFilter_eq`. -/
def checkFilter_eq (arguments : PredicateArguments) : Option String :=
  if arguments.length < 2 then some "Too few arguments" else none

/-- The loop of `checkFilter_match` over `arguments.last(arguments.size() - 1)`. -/
def checkFilter_match.rest : List Argument → Option String
  | [] => none
  | Argument.capture _ :: rest => checkFilter_match.rest rest
  | Argument.string _ :: _ => some "Argument is not a capture"

/-- The validator `Predicates::checkFilter_match`. -/
def checkFilter_match (rx : RegexEngine) (arguments : PredicateArguments) : Option String :=
  if arguments.length < 2 then some "Too few arguments"
  else
    match arguments with
    | [] => some "Too few arguments"
    | Argument.string regexString :: rest =>
      if !rx.isValid regexString then some "Invalid Regex"
      else checkFilter_match.rest rest
    | Argument.capture _ :: _ => some "Missing regex"

/-- The loop of `checkFilter_in_message_map`. -/
def checkFilter_in_message_map.loop : List Argument → Option String
  | [] => none
  | Argument.capture _ :: rest => checkFilter_in_message_map.loop rest
  | Argument.string _ :: _ => some "Non-Capture Argument"

/-- The validator `Predicates::checkFilter_in_message_map`. -/
def checkFilter_in_message_map (arguments : PredicateArguments) : Option String :=
  if arguments.isEmpty then some "Too few arguments"
  else checkFilter_in_message_map.loop arguments

/-! ## Evaluators -/

/-- The loop of `filter_eq`: `texts.emplace(...)` on a `std::set<QString>`, kept as a
duplicate-free list. -/
def filter_eq.collect (source : String) : List MatchedArgument → List String → List String
  | [], texts => texts
  | MatchedArgument.capture capture :: rest, texts =>
    filter_eq.collect source rest (texts.insert (capture.node.textIn source))
  | MatchedArgument.string string :: rest, texts =>
    filter_eq.collect source rest (texts.insert string)
  | MatchedArgument.missing _ :: rest, texts =>
    filter_eq.collect source rest (texts.insert "")

/-- The evaluator `Predicates::filter_eq`. -/
def filter_eq (self : Predicates) (m : QueryMatch) (arguments : PredicateArguments) : Bool :=
  let matched := matchArguments m arguments
  let texts := filter_eq.collect self.m_source matched []
  texts.length == 1

/-- The loop of `filter_match` over `matched.last(matched.size() - 1)`. -/
def filter_match.rest (rx : RegexEngine) (source regexString : String) :
    List MatchedArgument → Bool
  | [] => true
  | MatchedArgument.capture capture :: rest =>
    if !rx.hasMatch regexString (capture.node.textIn source) then false
    else filter_match.rest rx source regexString rest
  | MatchedArgument.missing _ :: _ => false
  | MatchedArgument.string _ :: _ => false

/-- The evaluator `Predicates::filter_match`.  `matched.first()` is only reached with
at least two declared arguments, when `matched` is not empty. -/
def filter_match (rx : RegexEngine) (self : Predicates) (m : QueryMatch)
    (arguments : PredicateArguments) : Bool :=
  let matched := matchArguments m arguments
  if arguments.length < 2 then false
  else
    match matched with
    | [] => false
    | MatchedArgument.string regexString :: rest =>
      if !rx.isValid regexString then false
      else filter_match.rest rx self.m_source regexString rest
    | MatchedArgument.capture _ :: _ => false
    | MatchedArgument.missing _ :: _ => false

/-! ## Cache store and the message-map predicate -/

/-- The method `Predicates::insertCache`: `m_caches.emplace_back(cache)`. -/
def insertCache (self : Predicates) (cache : PredicateCache) : Predicates :=
  ⟨self.m_source, self.m_rootNode, self.m_caches ++ [cache]⟩

/-- Modelled from the spec: `findCache<MessageMapCache>()` is a template of `predicates.h`,
which is not at hand; it is the type-keyed lookup of the cache store, here the first
`MessageMapCache` entry. -/
def findCache : List PredicateCache → Option (Node × Node)
  | [] => none
  | PredicateCache.MessageMapCache m_begin m_end :: _ => some (m_begin, m_end)

/-- The method `Predicates::findMessageMap`. -/
def findMessageMap (qe : QueryEngine) (self : Predicates) : Predicates :=
  match findCache self.m_caches with
  | some _ => self
  | none =>
    match self.m_rootNode with
    | none => self
    | some rootNode =>
      match qe.nextMatch self.m_source rootNode with
      | none => self
      | some found =>
        match qe.capturesNamed found "begin", qe.capturesNamed found "end" with
        | b :: _, e :: _ => insertCache self (PredicateCache.MessageMapCache b.node e.node)
        | _, _ => self

/-- The loop of `filter_in_message_map` over the resolved arguments. -/
def filter_in_message_map.loop (m_begin m_end : Node) : List MatchedArgument → Bool
  | [] => true
  | MatchedArgument.capture capture :: rest =>
    if !(decide (m_begin.endPosition ≤ capture.node.startPosition)
          && decide (capture.node.endPosition ≤ m_end.startPosition)) then false
    else filter_in_message_map.loop m_begin m_end rest
  | MatchedArgument.string _ :: _ => false
  | MatchedArgument.missing _ :: _ => false

/-- The evaluator `Predicates::filter_in_message_map`; it returns the evaluator with the
cache store as `findMessageMap` left it. -/
def filter_in_message_map (qe : QueryEngine) (self : Predicates) (m : QueryMatch)
    (arguments : PredicateArguments) : Bool × Predicates :=
  let self1 := findMessageMap qe self
  match findCache self1.m_caches with
  | some (m_begin, m_end) =>
    (filter_in_message_map.loop m_begin m_end (matchArguments m arguments), self1)
  | none => (false, self1)

/-! ## Registry and dispatch -/

/-- A registered evaluator, a member function `bool (Predicates::*)(match, arguments) const`;
the libraries it may call are passed along. -/
abbrev FilterFunction :=
  RegexEngine → QueryEngine → Predicates → QueryMatch → PredicateArguments → Bool × Predicates

/-- A registered validator, a static function of the declared arguments. -/
abbrev CheckFunction := RegexEngine → PredicateArguments → Option String

/-- The struct `Predicates::Filters`: the two maps keyed by predicate name. -/
structure Filters where
  filterFunctions : List (String × FilterFunction)
  checkFunctions : List (String × CheckFunction)

/-- The assignment `map[key] = value`. -/
def mapAssign {β : Type} (map : List (String × β)) (key : String) (value : β) :
    List (String × β) :=
  if map.any (fun entry => entry.1 == key) then
    map.map (fun entry => if entry.1 == key then (key, value) else entry)
  else map ++ [(key, value)]

/-- The macro `REGISTER_FILTER(NAME)`: both maps get the key `NAME "?"`. -/
def REGISTER_FILTER (filters : Filters) (NAME : String) (filter : FilterFunction)
    (check : CheckFunction) : Filters :=
  ⟨mapAssign filters.filterFunctions (NAME ++ "?") filter,
   mapAssign filters.checkFunctions (NAME ++ "?") check⟩

/-- The registry `Predicates::filters()`. -/
def filters : Filters :=
  let filters0 : Filters := ⟨[], []⟩
  let filters1 := REGISTER_FILTER filters0 "eq"
    (fun _ _ self m arguments => (filter_eq self m arguments, self))
    (fun _ arguments => checkFilter_eq arguments)
  let filters2 := REGISTER_FILTER filters1 "match"
    (fun rx _ self m arguments => (filter_match rx self m arguments, self))
    (fun rx arguments => checkFilter_match rx arguments)
  REGISTER_FILTER filters2 "in_message_map"
    (fun _ qe self m arguments => filter_in_message_map qe self m arguments)
    (fun _ arguments => checkFilter_in_message_map arguments)

/-- The function `Predicates::checkPredicate`. -/
def checkPredicate (rx : RegexEngine) (predicate : Query.Predicate) : Option String :=
  match filters.checkFunctions.lookup predicate.name with
  | some check => check rx predicate.arguments
  | none => some "Unknown predicate"

/-- The loop of `filterMatch` over `pattern.predicates`. -/
def filterMatch.loop (rx : RegexEngine) (qe : QueryEngine) (m : QueryMatch) :
    Predicates → List Query.Predicate → Bool × Predicates
  | self, [] => (true, self)
  | self, predicate :: rest =>
    match filters.filterFunctions.lookup predicate.name with
    | some filterPredicate =>
      match filterPredicate rx qe self m predicate.arguments with
      | (false, self1) => (false, self1)
      | (true, self1) => filterMatch.loop rx qe m self1 rest
    | none => filterMatch.loop rx qe m self rest

/-- The method `Predicates::filterMatch`; `patterns.at(match.patternIndex())` has no result
when the index is out of range. -/
def filterMatch (rx : RegexEngine) (qe : QueryEngine) (self : Predicates) (m : QueryMatch) :
    Option (Bool × Predicates) :=
  match m.query.patterns[m.patternIndex]? with
  | none => none
  | some pattern => some (filterMatch.loop rx qe m self pattern.predicates)

/-! ## Specification-side definitions -/

/-- The captures of the match bound to slot `id`, in the order of the capture list. -/
def boundCaptures (m : QueryMatch) (id : Nat) : List QueryMatch.Capture :=
  m.captures.filter (fun capture => decide (capture.id = id))

/-- The values one declared argument resolves to: a literal is one value; a capture
reference is one bound capture per binding, or one `MissingCapture` when there is none. -/
def emission (m : QueryMatch) : Argument → List MatchedArgument
  | Argument.string s => [MatchedArgument.string s]
  | Argument.capture c =>
    match boundCaptures m c.id with
    | [] => [MatchedArgument.missing ⟨c⟩]
    | bound => bound.map MatchedArgument.capture

/-- The emission of a capture reference without the sentinel: bound captures only. -/
def boundEmission (m : QueryMatch) : Argument → List MatchedArgument
  | Argument.string s => [MatchedArgument.string s]
  | Argument.capture c => (boundCaptures m c.id).map MatchedArgument.capture

/-- The text a resolved argument stands for in `eq?`: a literal is its own text, a bound
capture the source text of its node, a `MissingCapture` the empty string. -/
def argumentText (source : String) : MatchedArgument → String
  | MatchedArgument.string s => s
  | MatchedArgument.capture c => c.node.textIn source
  | MatchedArgument.missing _ => ""

/-- The acceptance condition of `match?` on the resolved values: the first one is a
literal that is a valid regular expression, and every other one is a bound capture in
whose source text the expression finds a match. -/
def matchAccepts (rx : RegexEngine) (source : String) (matched : List MatchedArgument) : Prop :=
  ∃ regexString rest, matched = MatchedArgument.string regexString :: rest
    ∧ rx.isValid regexString = true
    ∧ ∀ value ∈ rest, ∃ c, value = MatchedArgument.capture c
        ∧ rx.hasMatch regexString (c.node.textIn source) = true

/-- The acceptance condition of `in_message_map?` on one resolved value: a bound capture
whose node lies between the end of `m_begin` and the start of `m_end`. -/
def insideMessageMap (m_begin m_end : Node) (value : MatchedArgument) : Prop :=
  ∃ c, value = MatchedArgument.capture c
    ∧ m_begin.endPosition ≤ c.node.startPosition
    ∧ c.node.endPosition ≤ m_end.startPosition

/-- Whether a predicate name has a registered evaluator. -/
def isRegistered (name : String) : Bool :=
  (filters.filterFunctions.lookup name).isSome

/-- A pattern without its predicates of unregistered name. -/
def Query.Pattern.withoutUnregistered (pattern : Query.Pattern) : Query.Pattern :=
  ⟨pattern.predicates.filter (fun predicate => isRegistered predicate.name)⟩

/-- The same match over the query whose patterns have lost their predicates of
unregistered name. -/
def QueryMatch.withoutUnregistered (m : QueryMatch) : QueryMatch :=
  ⟨⟨m.query.patterns.map Query.Pattern.withoutUnregistered⟩, m.patternIndex, m.captures⟩

/-- The outcome of the search of `findMessageMap` when it yields no boundary pair: no root
node is configured, or the message-map query has no match, or its match lacks a `begin`
or an `end` capture. -/
def searchFails (qe : QueryEngine) (self : Predicates) : Prop :=
  self.m_rootNode = none
  ∨ (∃ rootNode, self.m_rootNode = some rootNode ∧ qe.nextMatch self.m_source rootNode = none)
  ∨ (∃ rootNode found, self.m_rootNode = some rootNode
      ∧ qe.nextMatch self.m_source rootNode = some found
      ∧ (qe.capturesNamed found "begin" = [] ∨ qe.capturesNamed found "end" = []))

/-- A series of `in_message_map?` invocations on one evaluator: the results in order and
the evaluator after the last one. -/
def inMessageMapRun (qe : QueryEngine) :
    Predicates → List (QueryMatch × PredicateArguments) → List Bool × Predicates
  | self, [] => ([], self)
  | self, (m, arguments) :: rest =>
    let first := filter_in_message_map qe self m arguments
    let others := inMessageMapRun qe first.2 rest
    (first.1 :: others.1, others.2)

/-- The evaluator `later` is `self` or what `findMessageMap` makes of `self`. -/
def Near (qe : QueryEngine) (self later : Predicates) : Prop :=
  later = self ∨ later = findMessageMap qe self

/-- The evaluator states a caller can bring about: construction, `setRootNode`, and
`filterMatch` on any match, with any regular-expression and query engine. -/
inductive Reachable : Predicates → Prop where
  | create (source : String) : Reachable (Predicates.create source)
  | setRootNode (self : Predicates) (node : Node) :
      Reachable self → Reachable (setRootNode self node)
  | filterMatch (rx : RegexEngine) (qe : QueryEngine) (self : Predicates) (m : QueryMatch)
      (accepted : Bool) (self1 : Predicates) :
      Reachable self → filterMatch rx qe self m = some (accepted, self1) → Reachable self1

/-! ## Sample inputs -/

/-- A query with one pattern and no predicate. -/
def sampleQuery : Query := ⟨[⟨[]⟩]⟩

/-- A match that binds slot 0 twice and slot 1 once. -/
def sampleMatch : QueryMatch :=
  ⟨sampleQuery, 0, [⟨0, ⟨0, 3⟩⟩, ⟨1, ⟨4, 7⟩⟩, ⟨0, ⟨8, 11⟩⟩]⟩

/-- A match without any capture. -/
def emptyMatch : QueryMatch := ⟨sampleQuery, 0, []⟩

/-- A sample regular-expression engine for plain patterns: a pattern of letters and
digits is valid and matches exactly where it occurs in the subject; every other pattern
is taken as invalid. -/
def plainEngine : RegexEngine :=
  ⟨fun pattern => pattern.data.all Char.isAlphanum,
   fun pattern subject => decide (pattern.data <:+: subject.data)⟩

/-- A sample source buffer with a message map. -/
def sampleSource : String := "BEGIN_MESSAGE_MAP(A, B) ON_COMMAND(x) END_MESSAGE_MAP()"

/-- The message-map query of `findMessageMap` as a compiled query: captures `begin` (0),
`class` (1) and `end` (2), and the two `eq?` predicates. -/
def messageMapQuery : Query :=
  ⟨[⟨[⟨"eq?", [Argument.capture ⟨0⟩, Argument.string "BEGIN_MESSAGE_MAP"]⟩,
      ⟨"eq?", [Argument.capture ⟨2⟩, Argument.string "END_MESSAGE_MAP"]⟩]⟩]⟩

/-- A sample query engine for `sampleSource`: the message-map query has one match, which
binds `begin` to the first identifier, `class` to `A` and `end` to the last identifier. -/
def sampleEngine : QueryEngine :=
  ⟨fun _ _ => some ⟨messageMapQuery, 0, [⟨0, ⟨0, 17⟩⟩, ⟨1, ⟨18, 19⟩⟩, ⟨2, ⟨38, 53⟩⟩]⟩,
   fun found name =>
    if name = "begin" then found.captures.filter (fun capture => decide (capture.id = 0))
    else if name = "class" then found.captures.filter (fun capture => decide (capture.id = 1))
    else if name = "end" then found.captures.filter (fun capture => decide (capture.id = 2))
    else []⟩

/-- A sample query engine for a tree without message map: the query has no match. -/
def emptyEngine : QueryEngine := ⟨fun _ _ => none, fun _ _ => []⟩

/-- An evaluator for `sampleSource` with a root node and an empty cache store. -/
def sampleEvaluator : Predicates := setRootNode (Predicates.create sampleSource) ⟨0, 55⟩

/-- A match that binds slot 0 to the call `ON_COMMAND` of `sampleSource`. -/
def commandMatch : QueryMatch := ⟨sampleQuery, 0, [⟨0, ⟨24, 34⟩⟩]⟩

/-- A query whose pattern carries `eq?` on slot 0 and the literal `ON_COMMAND`, then
`in_message_map?` on slot 0. -/
def commandQuery : Query :=
  ⟨[⟨[⟨"eq?", [Argument.capture ⟨0⟩, Argument.string "ON_COMMAND"]⟩,
      ⟨"in_message_map?", [Argument.capture ⟨0⟩]⟩]⟩]⟩

/-- A match of `commandQuery` that binds slot 0 to the last identifier of `sampleSource`,
whose text is not `ON_COMMAND`. -/
def endMatch : QueryMatch := ⟨commandQuery, 0, [⟨0, ⟨38, 53⟩⟩]⟩

/-- A query whose pattern carries the unregistered `foo?` before `eq?`. -/
def fooQuery : Query :=
  ⟨[⟨[⟨"foo?", [Argument.string "x"]⟩,
      ⟨"eq?", [Argument.capture ⟨0⟩, Argument.string "ON_COMMAND"]⟩]⟩]⟩

/-- A match of `fooQuery` that binds slot 0 to the call `ON_COMMAND` of `sampleSource`. -/
def fooMatch : QueryMatch := ⟨fooQuery, 0, [⟨0, ⟨24, 34⟩⟩]⟩

/-- A match whose pattern carries nothing but the unregistered `foo?`. -/
def onlyFooMatch : QueryMatch := ⟨⟨[⟨[⟨"foo?", [Argument.string "x"]⟩]⟩]⟩, 0, []⟩


/-- A match of `commandQuery` that binds slot 0 to the call `ON_COMMAND` of `sampleSource`. -/
def commandQueryMatch : QueryMatch := ⟨commandQuery, 0, [⟨0, ⟨24, 34⟩⟩]⟩

/-- An evaluator for the source buffer `Foo Bar Foo`. -/
def fooBarEvaluator : Predicates := Predicates.create "Foo Bar Foo"

/-- The compiled query `(identifier) @id (#eq? @id "Foo")`, with `@id` as slot 0. -/
def eqFooQuery : Query := ⟨[⟨[⟨"eq?", [Argument.capture ⟨0⟩, Argument.string "Foo"]⟩]⟩]⟩

/-- The match of `eqFooQuery` at the identifier that spans the given positions. -/
def eqFooMatch (startPosition endPosition : Nat) : QueryMatch :=
  ⟨eqFooQuery, 0, [⟨0, ⟨startPosition, endPosition⟩⟩]⟩

/-- An evaluator whose cache store already holds the boundary pair of its source buffer:
the markers span 7 to 24 and 45 to 60. -/
def cachedEvaluator : Predicates :=
  ⟨"int x; BEGIN_MESSAGE_MAP(A, B) ON_COMMAND(x) END_MESSAGE_MAP()", some ⟨0, 62⟩,
   [PredicateCache.MessageMapCache ⟨7, 24⟩ ⟨45, 60⟩]⟩

/-- A match that binds slot 0 to the node that spans the given positions. -/
def nodeMatch (startPosition endPosition : Nat) : QueryMatch :=
  ⟨sampleQuery, 0, [⟨0, ⟨startPosition, endPosition⟩⟩]⟩

/-! ## The argument resolver -/

theorem scan_eq (id : Nat) (captures : List QueryMatch.Capture)
    (result : List MatchedArgument) (found : Bool) :
    matchArguments.scan id captures (result, found) =
      (result ++ (captures.filter (fun capture => decide (capture.id = id))).map
          MatchedArgument.capture,
        found || !(captures.filter (fun capture => decide (capture.id = id))).isEmpty) := by
  induction captures generalizing result found with
  | nil => simp [matchArguments.scan]
  | cons capture rest ih =>
    by_cases h : capture.id = id
    · simp [matchArguments.scan, h, ih]
    · simp [matchArguments.scan, h, ih]

theorem go_eq (m : QueryMatch) (arguments : List Argument) (result : List MatchedArgument) :
    matchArguments.go m arguments result = result ++ arguments.flatMap (emission m) := by
  induction arguments generalizing result with
  | nil => simp [matchArguments.go]
  | cons argument rest ih =>
    cases argument with
    | string s => simp [matchArguments.go, ih, emission]
    | capture c =>
      rw [matchArguments.go, scan_eq]
      cases hb : boundCaptures m c.id with
      | nil =>
        have hb2 := hb
        unfold boundCaptures at hb2
        simp [hb2, ih, emission, hb]
      | cons b bs =>
        have hb2 := hb
        unfold boundCaptures at hb2
        simp [hb2, ih, emission, hb]

theorem matchArguments_eq (m : QueryMatch) (arguments : PredicateArguments) :
    matchArguments m arguments = arguments.flatMap (emission m) := by
  simp [matchArguments, go_eq]

theorem emission_ne_nil (m : QueryMatch) (argument : Argument) : emission m argument ≠ [] := by
  cases argument with
  | string s => simp [emission]
  | capture c =>
    cases hb : boundCaptures m c.id with
    | nil => simp [emission, hb]
    | cons b bs => simp [emission, hb]

theorem matchArguments_length (m : QueryMatch) (arguments : PredicateArguments) :
    arguments.length ≤ (matchArguments m arguments).length := by
  rw [matchArguments_eq]
  induction arguments with
  | nil => simp
  | cons argument rest ih =>
    have hne := emission_ne_nil m argument
    have hpos : 0 < (emission m argument).length := List.length_pos.mpr hne
    simp only [List.flatMap_cons, List.length_append, List.length_cons]
    omega

theorem matchArguments_captures (m m2 : QueryMatch) (h : m.captures = m2.captures)
    (arguments : PredicateArguments) : matchArguments m arguments = matchArguments m2 arguments := by
  have he : emission m = emission m2 := by
    funext argument
    cases argument with
    | string s => rfl
    | capture c => simp [emission, boundCaptures, h]
  rw [matchArguments_eq, matchArguments_eq, he]

/-- Claim C2, as stated, fails: for a reference to a slot without binding the resolver
returns one `MissingCapture`, while the bound captures of the slot are none. -/
theorem matchArguments_unbound_reference :
    matchArguments emptyMatch [Argument.capture ⟨0⟩] = [MatchedArgument.missing ⟨⟨0⟩⟩]
    ∧ [Argument.capture ⟨0⟩].flatMap (boundEmission emptyMatch) = [] := by
  decide

/-- Claim C2, amended: `matchArguments` returns the concatenation, in declared order, of
the emissions of the arguments, each contiguous at its declared position; a literal
emits itself, a capture reference with `N ≥ 1` bindings emits exactly these `N` bound
captures in the order of the capture list, and a reference without binding emits exactly
one `MissingCapture`. -/
theorem matchArguments_concat (m : QueryMatch) (arguments : PredicateArguments) :
    matchArguments m arguments = arguments.flatMap (emission m)
    ∧ (∀ before argument after, arguments = before ++ argument :: after →
        matchArguments m arguments
          = matchArguments m before ++ emission m argument ++ matchArguments m after)
    ∧ (∀ s, emission m (Argument.string s) = [MatchedArgument.string s])
    ∧ (∀ c, boundCaptures m c.id ≠ [] →
        emission m (Argument.capture c) = (boundCaptures m c.id).map MatchedArgument.capture
        ∧ (emission m (Argument.capture c)).length = (boundCaptures m c.id).length)
    ∧ (∀ c, boundCaptures m c.id = [] →
        emission m (Argument.capture c) = [MatchedArgument.missing ⟨c⟩]) := by
  refine ⟨matchArguments_eq m arguments, ?_, fun s => rfl, ?_, ?_⟩
  · intro before argument after h
    subst h
    simp [matchArguments_eq]
  · intro c hc
    cases hb : boundCaptures m c.id with
    | nil => exact absurd hb hc
    | cons b bs => simp [emission, hb]
  · intro c hc
    simp [emission, hc]

/-- Claim C2, an instance: a capture reference bound twice yields its two captures, in
match order, at its declared position between the two literals. -/
theorem matchArguments_concat_witness :
    boundCaptures sampleMatch 0 ≠ []
    ∧ (emission sampleMatch (Argument.capture ⟨0⟩)
        = (boundCaptures sampleMatch 0).map MatchedArgument.capture
      ∧ (emission sampleMatch (Argument.capture ⟨0⟩)).length = (boundCaptures sampleMatch 0).length)
    ∧ matchArguments sampleMatch
        [Argument.string "a", Argument.capture ⟨0⟩, Argument.string "b"]
      = [MatchedArgument.string "a", MatchedArgument.capture ⟨0, ⟨0, 3⟩⟩,
          MatchedArgument.capture ⟨0, ⟨8, 11⟩⟩, MatchedArgument.string "b"] :=
  ⟨by decide,
   (matchArguments_concat sampleMatch
      [Argument.string "a", Argument.capture ⟨0⟩, Argument.string "b"]).2.2.2.1 ⟨0⟩ (by decide),
   by decide⟩

/-! ## The equality predicate -/

theorem collect_cons (source : String) (x : MatchedArgument) (rest : List MatchedArgument)
    (texts : List String) :
    filter_eq.collect source (x :: rest) texts
      = filter_eq.collect source rest (texts.insert (argumentText source x)) := by
  cases x <;> rfl

theorem collect_spec (source : String) (xs : List MatchedArgument) (texts : List String)
    (hn : texts.Nodup) :
    (filter_eq.collect source xs texts).Nodup
    ∧ (filter_eq.collect source xs texts).toFinset
        = texts.toFinset ∪ (xs.map (argumentText source)).toFinset := by
  induction xs generalizing texts with
  | nil => simp [filter_eq.collect, hn]
  | cons x rest ih =>
    rw [collect_cons]
    obtain ⟨h1, h2⟩ := ih (texts.insert (argumentText source x)) (hn.insert)
    refine ⟨h1, ?_⟩
    rw [h2]
    ext t
    simp
    tauto

/-- Claim C3: `filter_eq` accepts iff the set of the texts of the resolved arguments has
exactly one element, a literal counting as its text, a bound capture as the source text
of its node, and a `MissingCapture` as the empty string. -/
theorem filter_eq_iff_one_text (self : Predicates) (m : QueryMatch)
    (arguments : PredicateArguments) :
    filter_eq self m arguments = true
      ↔ ((matchArguments m arguments).map (argumentText self.m_source)).toFinset.card = 1 := by
  obtain ⟨h1, h2⟩ := collect_spec self.m_source (matchArguments m arguments) [] List.nodup_nil
  have h3 := List.toFinset_card_of_nodup h1
  rw [h2] at h3
  simp at h3
  simp [filter_eq, h3]

/-! ## The regex predicate -/

theorem filter_match_rest_iff (rx : RegexEngine) (source regexString : String)
    (rest : List MatchedArgument) :
    filter_match.rest rx source regexString rest = true
      ↔ ∀ value ∈ rest, ∃ c, value = MatchedArgument.capture c
          ∧ rx.hasMatch regexString (c.node.textIn source) = true := by
  induction rest with
  | nil => simp [filter_match.rest]
  | cons value rest ih =>
    cases value with
    | string s => simp [filter_match.rest]
    | missing mc => simp [filter_match.rest]
    | capture c =>
      by_cases h : rx.hasMatch regexString (c.node.textIn source) = true
      · simp [filter_match.rest, h, ih]
      · simp [filter_match.rest, h]

/-- Claim C4, as stated, fails: with the single declared argument `"a"` the first resolved
value is a valid regular expression and there is no other value, yet `filter_match`
rejects. -/
theorem filter_match_single_argument :
    filter_match plainEngine sampleEvaluator emptyMatch [Argument.string "a"] = false
    ∧ matchAccepts plainEngine sampleEvaluator.m_source
        (matchArguments emptyMatch [Argument.string "a"]) :=
  ⟨by decide, "a", [], by decide, by decide, by simp⟩

/-- Claim C4, amended: `filter_match` accepts iff at least two arguments are declared, the
first resolved value is a literal that is a valid regular expression, every other
resolved value is a bound capture, and the expression finds a match in the source text
of each of these captures; in every other case it rejects. -/
theorem filter_match_iff (rx : RegexEngine) (self : Predicates) (m : QueryMatch)
    (arguments : PredicateArguments) :
    filter_match rx self m arguments = true
      ↔ 2 ≤ arguments.length ∧ matchAccepts rx self.m_source (matchArguments m arguments) := by
  unfold filter_match matchAccepts
  by_cases hlen : arguments.length < 2
  · simp [hlen]
  · have hlen2 : 2 ≤ arguments.length := by omega
    simp only [hlen, if_false, hlen2, true_and]
    cases hm : matchArguments m arguments with
    | nil => simp
    | cons first rest =>
      cases first with
      | capture c => simp
      | missing mc => simp
      | string regexString =>
        by_cases hv : rx.isValid regexString = true
        · simp only [hv, Bool.not_true, Bool.false_eq_true, if_false, filter_match_rest_iff]
          constructor
          · intro h
            exact ⟨regexString, rest, rfl, hv, h⟩
          · rintro ⟨r, rs, heq, -, h⟩
            cases heq
            exact h
        · have hv3 : rx.isValid regexString = false := by simpa using hv
          simp only [hv3, Bool.not_false, if_true]
          constructor
          · intro h
            cases h
          · rintro ⟨r, rs, heq, hv2, -⟩
            cases heq
            exact absurd hv2 hv

/-! ## The message-map predicate -/

theorem filter_in_message_map_loop_iff (m_begin m_end : Node) (matched : List MatchedArgument) :
    filter_in_message_map.loop m_begin m_end matched = true
      ↔ ∀ value ∈ matched, insideMessageMap m_begin m_end value := by
  induction matched with
  | nil => simp [filter_in_message_map.loop]
  | cons value rest ih =>
    cases value with
    | string s => simp [filter_in_message_map.loop, insideMessageMap]
    | missing mc => simp [filter_in_message_map.loop, insideMessageMap]
    | capture c =>
      by_cases h : m_begin.endPosition ≤ c.node.startPosition
          ∧ c.node.endPosition ≤ m_end.startPosition
      · simp [filter_in_message_map.loop, insideMessageMap, h, ih]
      · simp only [not_and_or, not_le] at h
        rcases h with h | h
        · simp [filter_in_message_map.loop, insideMessageMap, h]
        · simp [filter_in_message_map.loop, insideMessageMap, h]

/-- Claim C5: when the boundary pair `(m_begin, m_end)` is available after
`findMessageMap`, `filter_in_message_map` accepts iff every resolved argument is a bound
capture whose node starts at or after the end of `m_begin` and ends at or before the
start of `m_end`; a resolved argument that is no bound capture makes it reject. -/
theorem filter_in_message_map_iff (qe : QueryEngine) (self : Predicates) (m : QueryMatch)
    (arguments : PredicateArguments) (m_begin m_end : Node)
    (h : findCache (findMessageMap qe self).m_caches = some (m_begin, m_end)) :
    ((filter_in_message_map qe self m arguments).1 = true
      ↔ ∀ value ∈ matchArguments m arguments, ∃ c, value = MatchedArgument.capture c
          ∧ m_begin.endPosition ≤ c.node.startPosition
          ∧ c.node.endPosition ≤ m_end.startPosition)
    ∧ (∀ value ∈ matchArguments m arguments, (∀ c, value ≠ MatchedArgument.capture c) →
        (filter_in_message_map qe self m arguments).1 = false) := by
  have key : (filter_in_message_map qe self m arguments).1
      = filter_in_message_map.loop m_begin m_end (matchArguments m arguments) := by
    simp [filter_in_message_map, h]
  rw [key]
  refine ⟨filter_in_message_map_loop_iff m_begin m_end _, ?_⟩
  intro value hv hnc
  cases hl : filter_in_message_map.loop m_begin m_end (matchArguments m arguments) with
  | false => rfl
  | true =>
    obtain ⟨c, hc, -⟩ := (filter_in_message_map_loop_iff m_begin m_end _).1 hl value hv
    exact absurd hc (hnc c)

/-- Claim C5, an instance: on the sample source the pair is found by the query, and the
capture of `ON_COMMAND` between the two markers is accepted. -/
theorem filter_in_message_map_iff_witness :
    findCache (findMessageMap sampleEngine sampleEvaluator).m_caches = some (⟨0, 17⟩, ⟨38, 53⟩)
    ∧ (filter_in_message_map sampleEngine sampleEvaluator commandMatch
        [Argument.capture ⟨0⟩]).1 = true
    ∧ ((filter_in_message_map sampleEngine sampleEvaluator commandMatch
          [Argument.capture ⟨0⟩]).1 = true
        ↔ ∀ value ∈ matchArguments commandMatch [Argument.capture ⟨0⟩],
            ∃ c, value = MatchedArgument.capture c
              ∧ (⟨0, 17⟩ : Node).endPosition ≤ c.node.startPosition
              ∧ c.node.endPosition ≤ (⟨38, 53⟩ : Node).startPosition) :=
  ⟨by decide, by decide,
   (filter_in_message_map_iff sampleEngine sampleEvaluator commandMatch
      [Argument.capture ⟨0⟩] ⟨0, 17⟩ ⟨38, 53⟩ (by decide)).1⟩

/-! ## The registry and the validators -/

theorem checkFunctions_eq :
    filters.checkFunctions
      = [("eq?", fun _ arguments => checkFilter_eq arguments),
         ("match?", fun rx arguments => checkFilter_match rx arguments),
         ("in_message_map?", fun _ arguments => checkFilter_in_message_map arguments)] := by
  rfl

theorem filterFunctions_eq :
    filters.filterFunctions
      = [("eq?", fun _ _ self m arguments => (filter_eq self m arguments, self)),
         ("match?", fun rx _ self m arguments => (filter_match rx self m arguments, self)),
         ("in_message_map?",
            fun _ qe self m arguments => filter_in_message_map qe self m arguments)] := by
  rfl

theorem lookup_checkFunctions_none (name : String)
    (h : name ∉ ["eq?", "match?", "in_message_map?"]) :
    filters.checkFunctions.lookup name = none := by
  simp only [List.mem_cons, List.mem_singleton, not_or, List.not_mem_nil, or_false] at h
  obtain ⟨h1, h2, h3⟩ := h
  have e1 : (name == "eq?") = false := by simpa using h1
  have e2 : (name == "match?") = false := by simpa using h2
  have e3 : (name == "in_message_map?") = false := by simpa using h3
  simp [checkFunctions_eq, List.lookup, e1, e2, e3]

theorem lookup_filterFunctions_none (name : String)
    (h : name ∉ ["eq?", "match?", "in_message_map?"]) :
    filters.filterFunctions.lookup name = none := by
  simp only [List.mem_cons, List.mem_singleton, not_or, List.not_mem_nil, or_false] at h
  obtain ⟨h1, h2, h3⟩ := h
  have e1 : (name == "eq?") = false := by simpa using h1
  have e2 : (name == "match?") = false := by simpa using h2
  have e3 : (name == "in_message_map?") = false := by simpa using h3
  simp [filterFunctions_eq, List.lookup, e1, e2, e3]

/-- Claim C6: `checkPredicate` answers `"Unknown predicate"` for every name that is not
registered, `"foo?"` among them, and for a registered name exactly what the validator
of that name answers on the arguments; it reads nothing but the predicate spec. -/
theorem checkPredicate_spec (rx : RegexEngine) (predicate : Query.Predicate) :
    (predicate.name ∉ ["eq?", "match?", "in_message_map?"] →
        checkPredicate rx predicate = some "Unknown predicate")
    ∧ (filters.checkFunctions.lookup predicate.name = none →
        checkPredicate rx predicate = some "Unknown predicate")
    ∧ (∀ check, filters.checkFunctions.lookup predicate.name = some check →
        checkPredicate rx predicate = check rx predicate.arguments)
    ∧ checkPredicate rx ⟨"foo?", predicate.arguments⟩ = some "Unknown predicate"
    ∧ checkPredicate rx ⟨"eq?", predicate.arguments⟩ = checkFilter_eq predicate.arguments
    ∧ checkPredicate rx ⟨"match?", predicate.arguments⟩
        = checkFilter_match rx predicate.arguments
    ∧ checkPredicate rx ⟨"in_message_map?", predicate.arguments⟩
        = checkFilter_in_message_map predicate.arguments := by
  refine ⟨?_, ?_, ?_, ?_, ?_, ?_, ?_⟩
  · intro h
    simp [checkPredicate, lookup_checkFunctions_none _ h]
  · intro h
    simp [checkPredicate, h]
  · intro check h
    simp [checkPredicate, h]
  · rfl
  · rfl
  · rfl
  · rfl

/-- Claim C6, an instance: the unregistered name `"bar?"` is answered with
`"Unknown predicate"`. -/
theorem checkPredicate_spec_witness :
    "bar?" ∉ ["eq?", "match?", "in_message_map?"]
    ∧ checkPredicate plainEngine ⟨"bar?", [Argument.string "x"]⟩ = some "Unknown predicate" :=
  ⟨by decide,
   (checkPredicate_spec plainEngine ⟨"bar?", [Argument.string "x"]⟩).1 (by decide)⟩

theorem checkFilter_match_rest_none (rest : List Argument) :
    checkFilter_match.rest rest = none ↔ ∀ argument ∈ rest, ∃ c, argument = Argument.capture c := by
  induction rest with
  | nil => simp [checkFilter_match.rest]
  | cons argument rest ih =>
    cases argument with
    | capture c => simp [checkFilter_match.rest, ih]
    | string s => simp [checkFilter_match.rest]

theorem checkFilter_match_rest_some (rest : List Argument)
    (h : ∃ s, Argument.string s ∈ rest) :
    checkFilter_match.rest rest = some "Argument is not a capture" := by
  induction rest with
  | nil => simp at h
  | cons argument rest ih =>
    cases argument with
    | string s => simp [checkFilter_match.rest]
    | capture c =>
      obtain ⟨s, hs⟩ := h
      simp only [List.mem_cons] at hs
      rcases hs with hs | hs
      · cases hs
      · simpa [checkFilter_match.rest] using ih ⟨s, hs⟩

/-- Claim C7: `checkFilter_match` reports no error iff at least two arguments are declared,
the first is a literal that is a valid regular expression, and every other one is a
capture reference.  Otherwise, in the order of the checks: `"Too few arguments"` for
fewer than two arguments, `"Missing regex"` when the first is no literal,
`"Invalid Regex"` when the literal is no valid expression, and
`"Argument is not a capture"` when one of the other arguments is a literal. -/
theorem checkFilter_match_spec (rx : RegexEngine) (arguments : PredicateArguments) :
    (checkFilter_match rx arguments = none
      ↔ 2 ≤ arguments.length
        ∧ ∃ regexString rest, arguments = Argument.string regexString :: rest
            ∧ rx.isValid regexString = true
            ∧ ∀ argument ∈ rest, ∃ c, argument = Argument.capture c)
    ∧ (arguments.length < 2 → checkFilter_match rx arguments = some "Too few arguments")
    ∧ (2 ≤ arguments.length → (∃ c rest, arguments = Argument.capture c :: rest) →
        checkFilter_match rx arguments = some "Missing regex")
    ∧ (2 ≤ arguments.length →
        (∃ regexString rest, arguments = Argument.string regexString :: rest
          ∧ rx.isValid regexString = false) →
        checkFilter_match rx arguments = some "Invalid Regex")
    ∧ (2 ≤ arguments.length →
        (∃ regexString rest, arguments = Argument.string regexString :: rest
          ∧ rx.isValid regexString = true ∧ ∃ s, Argument.string s ∈ rest) →
        checkFilter_match rx arguments = some "Argument is not a capture") := by
  refine ⟨?_, ?_, ?_, ?_, ?_⟩
  · unfold checkFilter_match
    by_cases hlen : arguments.length < 2
    · simp [hlen]
    · have hlen2 : 2 ≤ arguments.length := by omega
      simp only [hlen, if_false, hlen2, true_and]
      cases arguments with
      | nil => simp
      | cons first rest =>
        cases first with
        | capture c => simp
        | string regexString =>
          cases hv : rx.isValid regexString with
          | false => simp [hv]
          | true =>
            simp only [hv, Bool.not_true, Bool.false_eq_true, if_false,
              checkFilter_match_rest_none]
            constructor
            · intro h
              exact ⟨regexString, rest, rfl, hv, h⟩
            · rintro ⟨r, rs, heq, -, h⟩
              cases heq
              exact h
  · intro hlen
    simp [checkFilter_match, hlen]
  · rintro hlen ⟨c, rest, rfl⟩
    have hlen2 : ¬ (Argument.capture c :: rest).length < 2 := by omega
    simp only [checkFilter_match, hlen2, if_false]
  · rintro hlen ⟨regexString, rest, rfl, hv⟩
    have hlen2 : ¬ (Argument.string regexString :: rest).length < 2 := by omega
    simp only [checkFilter_match, hlen2, if_false, hv, Bool.not_false, if_true]
  · rintro hlen ⟨regexString, rest, rfl, hv, hs⟩
    have hlen2 : ¬ (Argument.string regexString :: rest).length < 2 := by omega
    simp only [checkFilter_match, hlen2, if_false, hv, Bool.not_true, Bool.false_eq_true,
      checkFilter_match_rest_some rest hs]

/-- Claim C7, an instance: a literal in second place is reported as
`"Argument is not a capture"`. -/
theorem checkFilter_match_spec_witness :
    2 ≤ [Argument.string "abc", Argument.string "x"].length
    ∧ plainEngine.isValid "abc" = true
    ∧ checkFilter_match plainEngine [Argument.string "abc", Argument.string "x"]
        = some "Argument is not a capture" :=
  ⟨by decide, by decide,
   (checkFilter_match_spec plainEngine [Argument.string "abc", Argument.string "x"]).2.2.2.2
      (by decide) ⟨"abc", [Argument.string "x"], rfl, by decide, "x", by simp⟩⟩

/-- Claim C8: `checkFilter_eq` reports `"Too few arguments"` iff fewer than two arguments
are declared and no error otherwise; so `checkPredicate` rejects every `eq?` spec with a
single argument. -/
theorem checkFilter_eq_spec (rx : RegexEngine) (arguments : PredicateArguments)
    (argument : Argument) :
    (checkFilter_eq arguments = some "Too few arguments" ↔ arguments.length < 2)
    ∧ (checkFilter_eq arguments = none ↔ 2 ≤ arguments.length)
    ∧ checkPredicate rx ⟨"eq?", [argument]⟩ = some "Too few arguments" := by
  refine ⟨?_, ?_, rfl⟩
  · by_cases h : arguments.length < 2 <;> simp [checkFilter_eq, h]
  · by_cases h : arguments.length < 2
    · simp [checkFilter_eq, h]
    · simp [checkFilter_eq, h]
      omega

theorem checkFilter_in_message_map_loop_none (arguments : List Argument) :
    checkFilter_in_message_map.loop arguments = none
      ↔ ∀ argument ∈ arguments, ∃ c, argument = Argument.capture c := by
  induction arguments with
  | nil => simp [checkFilter_in_message_map.loop]
  | cons argument rest ih =>
    cases argument with
    | capture c => simp [checkFilter_in_message_map.loop, ih]
    | string s => simp [checkFilter_in_message_map.loop]

/-- Claim C9: `checkFilter_in_message_map` reports no error iff the argument list is not
empty and every argument is a capture reference; it reports an error for the empty list
and for every list that contains a literal. -/
theorem checkFilter_in_message_map_spec (arguments : PredicateArguments) :
    (checkFilter_in_message_map arguments = none
      ↔ arguments ≠ [] ∧ ∀ argument ∈ arguments, ∃ c, argument = Argument.capture c)
    ∧ checkFilter_in_message_map [] = some "Too few arguments"
    ∧ ((∃ s, Argument.string s ∈ arguments) →
        checkFilter_in_message_map arguments = some "Non-Capture Argument") := by
  have hiff : checkFilter_in_message_map arguments = none
      ↔ arguments ≠ [] ∧ ∀ argument ∈ arguments, ∃ c, argument = Argument.capture c := by
    cases arguments with
    | nil => simp [checkFilter_in_message_map]
    | cons first rest =>
      simp only [checkFilter_in_message_map, List.isEmpty_cons, Bool.false_eq_true, if_false,
        checkFilter_in_message_map_loop_none]
      simp
  refine ⟨hiff, rfl, ?_⟩
  rintro ⟨s, hs⟩
  have hne : arguments ≠ [] := List.ne_nil_of_mem hs
  have hloop : checkFilter_in_message_map.loop arguments = some "Non-Capture Argument" := by
    clear hiff hne
    induction arguments with
    | nil => simp at hs
    | cons first rest ih =>
      cases first with
      | string t => simp [checkFilter_in_message_map.loop]
      | capture c =>
        simp only [List.mem_cons] at hs
        rcases hs with hs | hs
        · cases hs
        · simpa [checkFilter_in_message_map.loop] using ih hs
  cases arguments with
  | nil => exact absurd rfl hne
  | cons first rest => simpa [checkFilter_in_message_map] using hloop

/-- Claim C9, an instance: a literal after a capture reference is reported. -/
theorem checkFilter_in_message_map_spec_witness :
    checkFilter_in_message_map [Argument.capture ⟨0⟩, Argument.string "x"]
      = some "Non-Capture Argument" :=
  (checkFilter_in_message_map_spec [Argument.capture ⟨0⟩, Argument.string "x"]).2.2
    ⟨"x", by simp⟩

/-! ## The dispatch loop -/

theorem loop_append (rx : RegexEngine) (qe : QueryEngine) (m : QueryMatch) (self : Predicates)
    (before after : List Query.Predicate) :
    filterMatch.loop rx qe m self (before ++ after)
      = match filterMatch.loop rx qe m self before with
        | (false, self1) => (false, self1)
        | (true, self1) => filterMatch.loop rx qe m self1 after := by
  induction before generalizing self with
  | nil => simp [filterMatch.loop]
  | cons predicate rest ih =>
    simp only [List.cons_append, filterMatch.loop]
    cases hl : filters.filterFunctions.lookup predicate.name with
    | none => exact ih self
    | some filterPredicate =>
      simp only
      rcases hf : filterPredicate rx qe self m predicate.arguments with ⟨ok, self1⟩
      cases ok with
      | false => simp
      | true => exact ih self1

theorem loop_true_iff (rx : RegexEngine) (qe : QueryEngine) (m : QueryMatch) (self : Predicates)
    (predicates : List Query.Predicate) :
    (filterMatch.loop rx qe m self predicates).1 = true
      ↔ ∀ before predicate after filterPredicate,
          predicates = before ++ predicate :: after →
          filters.filterFunctions.lookup predicate.name = some filterPredicate →
          (filterPredicate rx qe (filterMatch.loop rx qe m self before).2 m
              predicate.arguments).1 = true := by
  induction predicates generalizing self with
  | nil =>
    simp [filterMatch.loop]
  | cons first rest ih =>
    cases hl : filters.filterFunctions.lookup first.name with
    | none =>
      have hstep : ∀ more, filterMatch.loop rx qe m self (first :: more)
          = filterMatch.loop rx qe m self more := by
        intro more
        simp only [filterMatch.loop, hl]
      rw [hstep, ih]
      constructor
      · intro h before predicate after filterPredicate hsplit hlook
        cases before with
        | nil =>
          simp only [List.nil_append, List.cons.injEq] at hsplit
          obtain ⟨h1, -⟩ := hsplit
          subst h1
          rw [hl] at hlook
          cases hlook
        | cons b before1 =>
          simp only [List.cons_append, List.cons.injEq] at hsplit
          obtain ⟨h1, h2⟩ := hsplit
          subst h1
          rw [hstep]
          exact h before1 predicate after filterPredicate h2 hlook
      · intro h before predicate after filterPredicate hsplit hlook
        have := h (first :: before) predicate after filterPredicate (by simp [hsplit]) hlook
        rwa [hstep] at this
    | some firstFilter =>
      rcases hf : firstFilter rx qe self m first.arguments with ⟨ok, self1⟩
      cases ok with
      | false =>
        have hstep : filterMatch.loop rx qe m self (first :: rest) = (false, self1) := by
          simp only [filterMatch.loop, hl, hf]
        rw [hstep]
        constructor
        · intro h
          cases h
        · intro h
          have := h [] first rest firstFilter rfl hl
          simp only [filterMatch.loop, hf] at this
          cases this
      | true =>
        have hstep : ∀ more, filterMatch.loop rx qe m self (first :: more)
            = filterMatch.loop rx qe m self1 more := by
          intro more
          simp only [filterMatch.loop, hl, hf]
        rw [hstep, ih]
        constructor
        · intro h before predicate after filterPredicate hsplit hlook
          cases before with
          | nil =>
            simp only [List.nil_append, List.cons.injEq] at hsplit
            obtain ⟨h1, -⟩ := hsplit
            subst h1
            rw [hl] at hlook
            cases hlook
            simp only [filterMatch.loop, hf]
          | cons b before1 =>
            simp only [List.cons_append, List.cons.injEq] at hsplit
            obtain ⟨h1, h2⟩ := hsplit
            subst h1
            rw [hstep]
            exact h before1 predicate after filterPredicate h2 hlook
        · intro h before predicate after filterPredicate hsplit hlook
          have := h (first :: before) predicate after filterPredicate (by simp [hsplit]) hlook
          rwa [hstep] at this

/-- Claim C1: `filterMatch` runs the predicates of the pattern of the match in declared
order.  At the first predicate whose registered evaluator rejects it returns `false`
with the evaluator state that this predicate left, whatever predicates follow, so that
no later predicate is evaluated or touches the cache store.  It returns `true` iff every
predicate with a registered evaluator accepts, each evaluated in the state its
predecessors left, and in particular for a pattern without predicates. -/
theorem filterMatch_short_circuit (rx : RegexEngine) (qe : QueryEngine) (self : Predicates)
    (m : QueryMatch) (pattern : Query.Pattern)
    (hp : m.query.patterns[m.patternIndex]? = some pattern) :
    (∀ before predicate after filterPredicate self1 self2,
        pattern.predicates = before ++ predicate :: after →
        filterMatch.loop rx qe m self before = (true, self1) →
        filters.filterFunctions.lookup predicate.name = some filterPredicate →
        filterPredicate rx qe self1 m predicate.arguments = (false, self2) →
        filterMatch rx qe self m = some (false, self2))
    ∧ ((∃ self1, filterMatch rx qe self m = some (true, self1))
        ↔ ∀ before predicate after filterPredicate,
            pattern.predicates = before ++ predicate :: after →
            filters.filterFunctions.lookup predicate.name = some filterPredicate →
            (filterPredicate rx qe (filterMatch.loop rx qe m self before).2 m
                predicate.arguments).1 = true)
    ∧ (pattern.predicates = [] → filterMatch rx qe self m = some (true, self))
    ∧ (filterMatch rx qe self m).isSome = true := by
  have hfm : filterMatch rx qe self m
      = some (filterMatch.loop rx qe m self pattern.predicates) := by
    simp only [filterMatch, hp]
  refine ⟨?_, ?_, ?_, ?_⟩
  · intro before predicate after filterPredicate self1 self2 hsplit hbefore hlook hfail
    rw [hfm, hsplit, loop_append, hbefore]
    simp only [filterMatch.loop, hlook, hfail]
  · rw [← loop_true_iff, hfm]
    constructor
    · rintro ⟨self1, h⟩
      simp only [Option.some.injEq] at h
      rw [h]
    · intro h
      refine ⟨(filterMatch.loop rx qe m self pattern.predicates).2, ?_⟩
      rw [← h]
  · intro hnil
    rw [hfm, hnil]
    rfl
  · rw [hfm]
    rfl

/-- Claim C1, an instance: on the sample source the `eq?` predicate rejects the last
identifier, and the `in_message_map?` predicate behind it, which alone would fill the
cache store, is not run: the cache store stays empty. -/
theorem filterMatch_short_circuit_witness :
    endMatch.query.patterns[endMatch.patternIndex]?
        = some ⟨[⟨"eq?", [Argument.capture ⟨0⟩, Argument.string "ON_COMMAND"]⟩,
                 ⟨"in_message_map?", [Argument.capture ⟨0⟩]⟩]⟩
    ∧ filterMatch plainEngine sampleEngine sampleEvaluator endMatch
        = some (false, sampleEvaluator)
    ∧ (filter_in_message_map sampleEngine sampleEvaluator endMatch
          [Argument.capture ⟨0⟩]).2.m_caches
        = [PredicateCache.MessageMapCache ⟨0, 17⟩ ⟨38, 53⟩] :=
  ⟨by decide,
   (filterMatch_short_circuit plainEngine sampleEngine sampleEvaluator endMatch
      ⟨[⟨"eq?", [Argument.capture ⟨0⟩, Argument.string "ON_COMMAND"]⟩,
        ⟨"in_message_map?", [Argument.capture ⟨0⟩]⟩]⟩ (by decide)).1
      [] ⟨"eq?", [Argument.capture ⟨0⟩, Argument.string "ON_COMMAND"]⟩
      [⟨"in_message_map?", [Argument.capture ⟨0⟩]⟩]
      (fun _ _ self m arguments => (filter_eq self m arguments, self))
      sampleEvaluator sampleEvaluator rfl rfl rfl (by decide),
   by decide⟩

/-! ## Unregistered predicate names -/

theorem registered_captures (rx : RegexEngine) (qe : QueryEngine) (name : String)
    (filterPredicate : FilterFunction)
    (hl : filters.filterFunctions.lookup name = some filterPredicate)
    (m m2 : QueryMatch) (h : m.captures = m2.captures) (self : Predicates)
    (arguments : PredicateArguments) :
    filterPredicate rx qe self m arguments = filterPredicate rx qe self m2 arguments := by
  have hm := matchArguments_captures m m2 h arguments
  rw [filterFunctions_eq] at hl
  simp only [List.lookup] at hl
  cases h1 : name == "eq?" with
  | true =>
    simp only [h1, Option.some.injEq] at hl
    subst hl
    simp only [filter_eq, hm]
  | false =>
    cases h2 : name == "match?" with
    | true =>
      simp only [h1, h2, Option.some.injEq] at hl
      subst hl
      simp only [filter_match, hm]
    | false =>
      cases h3 : name == "in_message_map?" with
      | true =>
        simp only [h1, h2, h3, Option.some.injEq] at hl
        subst hl
        simp only [filter_in_message_map, hm]
      | false =>
        simp only [h1, h2, h3] at hl
        cases hl

theorem loop_captures (rx : RegexEngine) (qe : QueryEngine) (m m2 : QueryMatch)
    (h : m.captures = m2.captures) (self : Predicates) (predicates : List Query.Predicate) :
    filterMatch.loop rx qe m self predicates = filterMatch.loop rx qe m2 self predicates := by
  induction predicates generalizing self with
  | nil => rfl
  | cons first rest ih =>
    simp only [filterMatch.loop]
    cases hl : filters.filterFunctions.lookup first.name with
    | none => exact ih self
    | some filterPredicate =>
      simp only
      rw [← registered_captures rx qe first.name filterPredicate hl m m2 h self first.arguments]
      rcases hf : filterPredicate rx qe self m first.arguments with ⟨ok, self1⟩
      cases ok with
      | false => rfl
      | true => exact ih self1

theorem loop_filter_registered (rx : RegexEngine) (qe : QueryEngine) (m : QueryMatch)
    (self : Predicates) (predicates : List Query.Predicate) :
    filterMatch.loop rx qe m self
        (predicates.filter (fun predicate => isRegistered predicate.name))
      = filterMatch.loop rx qe m self predicates := by
  induction predicates generalizing self with
  | nil => rfl
  | cons first rest ih =>
    cases hl : filters.filterFunctions.lookup first.name with
    | none =>
      have hr : isRegistered first.name = false := by simp [isRegistered, hl]
      simp only [List.filter_cons, hr, filterMatch.loop, hl]
      exact ih self
    | some filterPredicate =>
      have hr : isRegistered first.name = true := by simp [isRegistered, hl]
      simp only [List.filter_cons, hr, if_true, filterMatch.loop, hl]
      rcases hf : filterPredicate rx qe self m first.arguments with ⟨ok, self1⟩
      cases ok with
      | false => rfl
      | true => exact ih self1

theorem loop_unregistered (rx : RegexEngine) (qe : QueryEngine) (m : QueryMatch)
    (self : Predicates) (predicates : List Query.Predicate)
    (h : ∀ predicate ∈ predicates, isRegistered predicate.name = false) :
    filterMatch.loop rx qe m self predicates = (true, self) := by
  induction predicates with
  | nil => rfl
  | cons first rest ih =>
    have hr := h first (List.mem_cons_self _ _)
    have hl : filters.filterFunctions.lookup first.name = none := by
      cases hl : filters.filterFunctions.lookup first.name with
      | none => rfl
      | some filterPredicate =>
        rw [isRegistered, hl] at hr
        cases hr
    simp only [filterMatch.loop, hl]
    exact ih (fun predicate hmem => h predicate (List.mem_cons_of_mem _ hmem))

/-- Claim C10: a predicate of unregistered name is skipped at run time and never fails the
match: `filterMatch` gives the same result on a match as on the same match over the
pattern without its predicates of unregistered name, and a pattern that carries only
such predicates is accepted with the evaluator unchanged. -/
theorem filterMatch_unregistered (rx : RegexEngine) (qe : QueryEngine) (self : Predicates)
    (m : QueryMatch) :
    filterMatch rx qe self m.withoutUnregistered = filterMatch rx qe self m
    ∧ (∀ pattern, m.query.patterns[m.patternIndex]? = some pattern →
        (∀ predicate ∈ pattern.predicates, isRegistered predicate.name = false) →
        filterMatch rx qe self m = some (true, self)) := by
  constructor
  · simp only [filterMatch, QueryMatch.withoutUnregistered, List.getElem?_map]
    cases hp : m.query.patterns[m.patternIndex]? with
    | none => rfl
    | some pattern =>
      simp only [Option.map_some', Query.Pattern.withoutUnregistered, Option.some.injEq]
      rw [loop_filter_registered]
      exact loop_captures rx qe
        ⟨⟨m.query.patterns.map Query.Pattern.withoutUnregistered⟩, m.patternIndex, m.captures⟩
        m rfl self pattern.predicates
  · intro pattern hp hall
    simp only [filterMatch, hp]
    rw [loop_unregistered rx qe m self pattern.predicates hall]

/-- Claim C10, an instance: a pattern that carries only `foo?` is accepted, and `foo?`
before `eq?` gives what `eq?` alone gives. -/
theorem filterMatch_unregistered_witness :
    onlyFooMatch.query.patterns[onlyFooMatch.patternIndex]?
        = some ⟨[⟨"foo?", [Argument.string "x"]⟩]⟩
    ∧ filterMatch plainEngine sampleEngine sampleEvaluator onlyFooMatch
        = some (true, sampleEvaluator)
    ∧ fooMatch.withoutUnregistered.query
        = ⟨[⟨[⟨"eq?", [Argument.capture ⟨0⟩, Argument.string "ON_COMMAND"]⟩]⟩]⟩
    ∧ filterMatch plainEngine sampleEngine sampleEvaluator fooMatch
        = some (true, sampleEvaluator) :=
  ⟨by decide,
   (filterMatch_unregistered plainEngine sampleEngine sampleEvaluator onlyFooMatch).2
      ⟨[⟨"foo?", [Argument.string "x"]⟩]⟩ (by decide) (by decide),
   by decide, by decide⟩

/-! ## The search for the boundary pair -/

theorem findCache_eq_none (caches : List PredicateCache) :
    findCache caches = none ↔ caches = [] := by
  cases caches with
  | nil => simp [findCache]
  | cons cache rest =>
    cases cache
    simp [findCache]

theorem findMessageMap_of_cached (qe : QueryEngine) (self : Predicates) (pair : Node × Node)
    (h : findCache self.m_caches = some pair) : findMessageMap qe self = self := by
  simp only [findMessageMap, h]

theorem findMessageMap_of_searchFails (qe : QueryEngine) (self : Predicates)
    (hfail : searchFails qe self) : findMessageMap qe self = self := by
  unfold findMessageMap
  cases hc : findCache self.m_caches with
  | some pair => rfl
  | none =>
    rcases hfail with h | ⟨rootNode, hr, hn⟩ | ⟨rootNode, found, hr, hn, hcap⟩
    · simp only [h]
    · simp only [hr, hn]
    · simp only [hr, hn]
      rcases hcap with hb | he
      · simp only [hb]
      · simp only [he]
        cases qe.capturesNamed found "begin" <;> rfl

theorem filter_in_message_map_of_searchFails (qe : QueryEngine) (self : Predicates)
    (hcache : findCache self.m_caches = none) (hfail : searchFails qe self) (m : QueryMatch)
    (arguments : PredicateArguments) :
    filter_in_message_map qe self m arguments = (false, self) := by
  simp only [filter_in_message_map, findMessageMap_of_searchFails qe self hfail, hcache]

/-- Claim C11: if the cache store holds no boundary pair and the search finds none (no
root node configured, no match of the message-map query, or a match without `begin` or
`end` capture), `filter_in_message_map` returns `false` for every match and every
argument list and leaves the evaluator as it was, so that every further invocation on
it returns `false` as well. -/
theorem filter_in_message_map_not_found (qe : QueryEngine) (self : Predicates)
    (hcache : findCache self.m_caches = none) (hfail : searchFails qe self) :
    (∀ m arguments, filter_in_message_map qe self m arguments = (false, self))
    ∧ (∀ calls, (inMessageMapRun qe self calls).2 = self
        ∧ ∀ result ∈ (inMessageMapRun qe self calls).1, result = false) := by
  refine ⟨filter_in_message_map_of_searchFails qe self hcache hfail, ?_⟩
  intro calls
  induction calls with
  | nil => simp [inMessageMapRun]
  | cons call rest ih =>
    obtain ⟨m, arguments⟩ := call
    simp only [inMessageMapRun,
      filter_in_message_map_of_searchFails qe self hcache hfail m arguments]
    refine ⟨ih.1, ?_⟩
    intro result hmem
    simp only [List.mem_cons] at hmem
    rcases hmem with h | h
    · exact h
    · exact ih.2 result h

/-- Claim C11, an instance: on a tree without message map three invocations in a row
are rejected and the cache store stays empty. -/
theorem filter_in_message_map_not_found_witness :
    findCache sampleEvaluator.m_caches = none
    ∧ inMessageMapRun emptyEngine sampleEvaluator
        [(commandMatch, [Argument.capture ⟨0⟩]), (emptyMatch, []),
         (commandMatch, [Argument.capture ⟨0⟩])]
      = ([false, false, false], sampleEvaluator)
    ∧ ∀ m arguments,
        filter_in_message_map emptyEngine sampleEvaluator m arguments
          = (false, sampleEvaluator) :=
  ⟨by decide, by decide,
   (filter_in_message_map_not_found emptyEngine sampleEvaluator (by decide)
      (Or.inr (Or.inl ⟨⟨0, 55⟩, rfl, rfl⟩))).1⟩

/-! ## Idempotence of `filterMatch` -/

theorem findMessageMap_cases (qe : QueryEngine) (self : Predicates) :
    findMessageMap qe self = self
    ∨ ∃ pair, findCache (findMessageMap qe self).m_caches = some pair := by
  obtain ⟨source, root, caches⟩ := self
  cases hc : findCache caches with
  | some pair => exact Or.inl (by simp only [findMessageMap, hc])
  | none =>
    have hnil := (findCache_eq_none _).1 hc
    subst hnil
    cases root with
    | none => exact Or.inl (by simp only [findMessageMap, hc])
    | some rootNode =>
      cases hn : qe.nextMatch source rootNode with
      | none => exact Or.inl (by simp only [findMessageMap, hc, hn])
      | some found =>
        cases hb : qe.capturesNamed found "begin" with
        | nil => exact Or.inl (by simp only [findMessageMap, hc, hn, hb])
        | cons b bs =>
          cases he : qe.capturesNamed found "end" with
          | nil => exact Or.inl (by simp only [findMessageMap, hc, hn, hb, he])
          | cons e es =>
            refine Or.inr ⟨(b.node, e.node), ?_⟩
            simp only [findMessageMap, hc, hn, hb, he, insertCache, List.nil_append, findCache]

theorem findMessageMap_idem (qe : QueryEngine) (self : Predicates) :
    findMessageMap qe (findMessageMap qe self) = findMessageMap qe self := by
  rcases findMessageMap_cases qe self with h | ⟨pair, h⟩
  · rw [h, h]
  · exact findMessageMap_of_cached qe _ pair h

theorem findMessageMap_source (qe : QueryEngine) (self : Predicates) :
    (findMessageMap qe self).m_source = self.m_source
    ∧ (findMessageMap qe self).m_rootNode = self.m_rootNode := by
  obtain ⟨source, root, caches⟩ := self
  cases hc : findCache caches with
  | some pair => simp only [findMessageMap, hc, and_self]
  | none =>
    cases root with
    | none => simp only [findMessageMap, hc, and_self]
    | some rootNode =>
      cases hn : qe.nextMatch source rootNode with
      | none => simp only [findMessageMap, hc, hn, and_self]
      | some found =>
        cases hb : qe.capturesNamed found "begin" with
        | nil => simp only [findMessageMap, hc, hn, hb, and_self]
        | cons b bs =>
          cases he : qe.capturesNamed found "end" with
          | nil => simp only [findMessageMap, hc, hn, hb, he, and_self]
          | cons e es => simp only [findMessageMap, hc, hn, hb, he, insertCache, and_self]

theorem lookup_filterFunctions_some (name : String) (filterPredicate : FilterFunction)
    (hl : filters.filterFunctions.lookup name = some filterPredicate) :
    (name = "eq?"
      ∧ filterPredicate = fun _ _ self m arguments => (filter_eq self m arguments, self))
    ∨ (name = "match?"
      ∧ filterPredicate = fun rx _ self m arguments => (filter_match rx self m arguments, self))
    ∨ (name = "in_message_map?"
      ∧ filterPredicate = fun _ qe self m arguments => filter_in_message_map qe self m arguments) := by
  rw [filterFunctions_eq] at hl
  simp only [List.lookup] at hl
  cases h1 : name == "eq?" with
  | true =>
    simp only [h1, Option.some.injEq] at hl
    exact Or.inl ⟨by simpa using h1, hl.symm⟩
  | false =>
    cases h2 : name == "match?" with
    | true =>
      simp only [h1, h2, Option.some.injEq] at hl
      exact Or.inr (Or.inl ⟨by simpa using h2, hl.symm⟩)
    | false =>
      cases h3 : name == "in_message_map?" with
      | true =>
        simp only [h1, h2, h3, Option.some.injEq] at hl
        exact Or.inr (Or.inr ⟨by simpa using h3, hl.symm⟩)
      | false =>
        simp only [h1, h2, h3] at hl
        cases hl

theorem near_source (qe : QueryEngine) (self later : Predicates) (h : Near qe self later) :
    later.m_source = self.m_source := by
  rcases h with h | h
  · rw [h]
  · rw [h]
    exact (findMessageMap_source qe self).1

theorem near_findMessageMap (qe : QueryEngine) (self later : Predicates)
    (h : Near qe self later) : findMessageMap qe later = findMessageMap qe self := by
  rcases h with h | h
  · rw [h]
  · rw [h]
    exact findMessageMap_idem qe self

theorem filter_in_message_map_snd (qe : QueryEngine) (self : Predicates) (m : QueryMatch)
    (arguments : PredicateArguments) :
    (filter_in_message_map qe self m arguments).2 = findMessageMap qe self := by
  simp only [filter_in_message_map]
  split <;> rfl

theorem filter_in_message_map_fst (qe : QueryEngine) (self : Predicates) (m : QueryMatch)
    (arguments : PredicateArguments) :
    (filter_in_message_map qe self m arguments).1
      = match findCache (findMessageMap qe self).m_caches with
        | some pair => filter_in_message_map.loop pair.1 pair.2 (matchArguments m arguments)
        | none => false := by
  simp only [filter_in_message_map]
  split
  · rename_i b e hc
    simp only [hc]
  · rename_i hc
    simp only [hc]

theorem registered_near (rx : RegexEngine) (qe : QueryEngine) (name : String)
    (filterPredicate : FilterFunction)
    (hl : filters.filterFunctions.lookup name = some filterPredicate)
    (self later : Predicates) (h : Near qe self later) (m : QueryMatch)
    (arguments : PredicateArguments) :
    (filterPredicate rx qe later m arguments).1 = (filterPredicate rx qe self m arguments).1
    ∧ Near qe self (filterPredicate rx qe self m arguments).2
    ∧ Near qe (filterPredicate rx qe self m arguments).2
        (filterPredicate rx qe later m arguments).2 := by
  have hs := near_source qe self later h
  have hf := near_findMessageMap qe self later h
  rcases lookup_filterFunctions_some name filterPredicate hl with
    ⟨-, rfl⟩ | ⟨-, rfl⟩ | ⟨-, rfl⟩
  · exact ⟨by simp only [filter_eq, hs], Or.inl rfl, h⟩
  · exact ⟨by simp only [filter_match, hs], Or.inl rfl, h⟩
  · refine ⟨?_, ?_, ?_⟩
    · rw [filter_in_message_map_fst, filter_in_message_map_fst, hf]
    · rw [filter_in_message_map_snd]
      exact Or.inr rfl
    · rw [filter_in_message_map_snd, filter_in_message_map_snd, hf]
      exact Or.inl rfl

theorem near_trans (qe : QueryEngine) (a b c : Predicates) (hab : Near qe a b)
    (hbc : Near qe b c) : Near qe a c := by
  rcases hbc with h | h
  · rw [h]
    exact hab
  · rw [h, near_findMessageMap qe a b hab]
    exact Or.inr rfl

theorem loop_near (rx : RegexEngine) (qe : QueryEngine) (m : QueryMatch)
    (predicates : List Query.Predicate) (self later : Predicates) (h : Near qe self later) :
    (filterMatch.loop rx qe m later predicates).1 = (filterMatch.loop rx qe m self predicates).1
    ∧ Near qe self (filterMatch.loop rx qe m self predicates).2 := by
  induction predicates generalizing self later with
  | nil => exact ⟨rfl, Or.inl rfl⟩
  | cons first rest ih =>
    simp only [filterMatch.loop]
    cases hl : filters.filterFunctions.lookup first.name with
    | none => exact ih self later h
    | some filterPredicate =>
      obtain ⟨h1, h2, h3⟩ :=
        registered_near rx qe first.name filterPredicate hl self later h m first.arguments
      rcases hs : filterPredicate rx qe self m first.arguments with ⟨ok, self1⟩
      rcases ht : filterPredicate rx qe later m first.arguments with ⟨ok1, later1⟩
      rw [hs, ht] at h1 h3
      rw [hs] at h2
      simp only at h1 h2 h3
      subst h1
      cases ok1 with
      | false =>
        simp only [hs, ht, true_and]
        exact h2
      | true =>
        simp only [hs, ht]
        obtain ⟨ih1, ih2⟩ := ih self1 later1 h3
        exact ⟨ih1, near_trans qe self self1 _ h2 ih2⟩

/-- Claim C12: for every evaluator state and every match, a second `filterMatch` on the
same match, run on the evaluator as the first call left it (the cache store possibly
filled by it), returns the same boolean as the first. -/
theorem filterMatch_idempotent (rx : RegexEngine) (qe : QueryEngine) (self : Predicates)
    (m : QueryMatch) (pattern : Query.Pattern)
    (hp : m.query.patterns[m.patternIndex]? = some pattern) :
    ∃ accepted self1 self2,
      filterMatch rx qe self m = some (accepted, self1)
      ∧ filterMatch rx qe self1 m = some (accepted, self2) := by
  refine ⟨(filterMatch.loop rx qe m self pattern.predicates).1,
    (filterMatch.loop rx qe m self pattern.predicates).2,
    (filterMatch.loop rx qe m (filterMatch.loop rx qe m self pattern.predicates).2
      pattern.predicates).2, ?_, ?_⟩
  · simp only [filterMatch, hp]
  · simp only [filterMatch, hp, Option.some.injEq]
    obtain ⟨-, hnear⟩ := loop_near rx qe m pattern.predicates self self (Or.inl rfl)
    obtain ⟨heq, -⟩ := loop_near rx qe m pattern.predicates self _ hnear
    rw [← heq]

/-- Claim C12, an instance: on the sample source the first call accepts and fills the
cache store, and the second call on the filled store accepts as well. -/
theorem filterMatch_idempotent_witness :
    commandQueryMatch.query.patterns[commandQueryMatch.patternIndex]?
        = some ⟨[⟨"eq?", [Argument.capture ⟨0⟩, Argument.string "ON_COMMAND"]⟩,
                 ⟨"in_message_map?", [Argument.capture ⟨0⟩]⟩]⟩
    ∧ filterMatch plainEngine sampleEngine sampleEvaluator commandQueryMatch
        = some (true, insertCache sampleEvaluator
            (PredicateCache.MessageMapCache ⟨0, 17⟩ ⟨38, 53⟩))
    ∧ ∃ accepted self1 self2,
        filterMatch plainEngine sampleEngine sampleEvaluator commandQueryMatch
          = some (accepted, self1)
        ∧ filterMatch plainEngine sampleEngine self1 commandQueryMatch
          = some (accepted, self2) :=
  ⟨by decide, by decide,
   filterMatch_idempotent plainEngine sampleEngine sampleEvaluator commandQueryMatch
      ⟨[⟨"eq?", [Argument.capture ⟨0⟩, Argument.string "ON_COMMAND"]⟩,
        ⟨"in_message_map?", [Argument.capture ⟨0⟩]⟩]⟩ (by decide)⟩

/-! ## The equality predicate, end to end -/

theorem filter_eq_pair (self : Predicates) (m : QueryMatch) (arguments : PredicateArguments)
    (a b : MatchedArgument) (h : matchArguments m arguments = [a, b]) :
    filter_eq self m arguments
      = decide (argumentText self.m_source a = argumentText self.m_source b) := by
  simp only [filter_eq, h, collect_cons, filter_eq.collect]
  by_cases hab : argumentText self.m_source a = argumentText self.m_source b
  · simp [hab]
  · have hba : ¬ argumentText self.m_source b = argumentText self.m_source a :=
      fun hh => hab hh.symm
    simp [hab, List.insert, hba]

theorem matchArguments_reference_literal (m : QueryMatch) (c : Query.Capture) (L : String) :
    matchArguments m [Argument.capture c, Argument.string L]
      = emission m (Argument.capture c) ++ [MatchedArgument.string L] := by
  simp [matchArguments_eq, emission]

/-- Claim C13: for a pattern whose only predicate is `eq?` on a capture reference and a
literal `L`, and a match that binds the referenced slot to exactly one node,
`filterMatch` accepts iff the source text of that node is `L`, and leaves the evaluator
as it was. -/
theorem filterMatch_eq_literal (rx : RegexEngine) (qe : QueryEngine) (self : Predicates)
    (m : QueryMatch) (c : Query.Capture) (L : String) (capture : QueryMatch.Capture)
    (hp : m.query.patterns[m.patternIndex]?
      = some ⟨[⟨"eq?", [Argument.capture c, Argument.string L]⟩]⟩)
    (hb : boundCaptures m c.id = [capture]) :
    filterMatch rx qe self m = some (decide (capture.node.textIn self.m_source = L), self)
    ∧ (filterMatch rx qe self m = some (true, self) ↔ capture.node.textIn self.m_source = L)
    ∧ (filterMatch rx qe self m = some (false, self)
        ↔ capture.node.textIn self.m_source ≠ L) := by
  have hm : matchArguments m [Argument.capture c, Argument.string L]
      = [MatchedArgument.capture capture, MatchedArgument.string L] := by
    rw [matchArguments_reference_literal]
    simp [emission, hb]
  have hf := filter_eq_pair self m _ _ _ hm
  simp only [argumentText] at hf
  have hl : filters.filterFunctions.lookup "eq?"
      = some (fun _ _ self m arguments => (filter_eq self m arguments, self)) := rfl
  have hmain : filterMatch rx qe self m
      = some (decide (capture.node.textIn self.m_source = L), self) := by
    simp only [filterMatch, hp, filterMatch.loop, hl, hf]
    by_cases ht : capture.node.textIn self.m_source = L
    · simp [ht]
    · simp [ht]
  refine ⟨hmain, ?_, ?_⟩
  · rw [hmain]
    simp
  · rw [hmain]
    simp

/-- Claim C13, the example: over the source `Foo Bar Foo` the matches at both `Foo` are
accepted and the match at `Bar` is rejected. -/
theorem filterMatch_eq_literal_witness :
    (eqFooMatch 0 3).query.patterns[(eqFooMatch 0 3).patternIndex]?
        = some ⟨[⟨"eq?", [Argument.capture ⟨0⟩, Argument.string "Foo"]⟩]⟩
    ∧ boundCaptures (eqFooMatch 4 7) 0 = [⟨0, ⟨4, 7⟩⟩]
    ∧ (⟨4, 7⟩ : Node).textIn "Foo Bar Foo" = "Bar"
    ∧ filterMatch plainEngine emptyEngine fooBarEvaluator (eqFooMatch 0 3)
        = some (true, fooBarEvaluator)
    ∧ filterMatch plainEngine emptyEngine fooBarEvaluator (eqFooMatch 4 7)
        = some (false, fooBarEvaluator)
    ∧ filterMatch plainEngine emptyEngine fooBarEvaluator (eqFooMatch 8 11)
        = some (true, fooBarEvaluator) :=
  ⟨by decide, by decide, by decide,
   ((filterMatch_eq_literal plainEngine emptyEngine fooBarEvaluator (eqFooMatch 0 3) ⟨0⟩ "Foo"
      ⟨0, ⟨0, 3⟩⟩ (by decide) (by decide)).2.1).2 (by decide),
   ((filterMatch_eq_literal plainEngine emptyEngine fooBarEvaluator (eqFooMatch 4 7) ⟨0⟩ "Foo"
      ⟨0, ⟨4, 7⟩⟩ (by decide) (by decide)).2.2).2 (by decide),
   ((filterMatch_eq_literal plainEngine emptyEngine fooBarEvaluator (eqFooMatch 8 11) ⟨0⟩ "Foo"
      ⟨0, ⟨8, 11⟩⟩ (by decide) (by decide)).2.1).2 (by decide)⟩

/-- Claim C14: when slot `c` has no binding in the match, `matchArguments` emits exactly
one `MissingCapture` for a reference to `c`; `eq?` on this reference and the literal
`""` accepts, and `eq?` on this reference and any non-empty literal rejects. -/
theorem filter_eq_missing_capture (self : Predicates) (m : QueryMatch) (c : Query.Capture)
    (hb : boundCaptures m c.id = []) :
    matchArguments m [Argument.capture c] = [MatchedArgument.missing ⟨c⟩]
    ∧ filter_eq self m [Argument.capture c, Argument.string ""] = true
    ∧ ∀ L, L ≠ "" → filter_eq self m [Argument.capture c, Argument.string L] = false := by
  have hm : ∀ L, matchArguments m [Argument.capture c, Argument.string L]
      = [MatchedArgument.missing ⟨c⟩, MatchedArgument.string L] := by
    intro L
    rw [matchArguments_reference_literal]
    simp [emission, hb]
  refine ⟨by simp [matchArguments_eq, emission, hb], ?_, ?_⟩
  · rw [filter_eq_pair self m _ _ _ (hm "")]
    simp [argumentText]
  · intro L hL
    rw [filter_eq_pair self m _ _ _ (hm L)]
    simp only [argumentText, decide_eq_false_iff_not]
    exact fun h => hL h.symm

/-- Claim C14, an instance: in a match without captures the reference to slot 0 equals
the literal `""` and differs from the literal `"x"`. -/
theorem filter_eq_missing_capture_witness :
    boundCaptures emptyMatch 0 = []
    ∧ matchArguments emptyMatch [Argument.capture ⟨0⟩] = [MatchedArgument.missing ⟨⟨0⟩⟩]
    ∧ filter_eq sampleEvaluator emptyMatch [Argument.capture ⟨0⟩, Argument.string ""] = true
    ∧ filter_eq sampleEvaluator emptyMatch [Argument.capture ⟨0⟩, Argument.string "x"] = false :=
  ⟨by decide,
   (filter_eq_missing_capture sampleEvaluator emptyMatch ⟨0⟩ (by decide)).1,
   (filter_eq_missing_capture sampleEvaluator emptyMatch ⟨0⟩ (by decide)).2.1,
   (filter_eq_missing_capture sampleEvaluator emptyMatch ⟨0⟩ (by decide)).2.2 "x" (by decide)⟩

/-! ## Captures before, between and after the markers -/

theorem textIn_length (n : Node) (source : String) :
    (n.textIn source).length ≤ n.endPosition - n.startPosition := by
  simp only [Node.textIn, String.length, List.length_take]
  exact Nat.min_le_left _ _

theorem marker_nonempty (n : Node) (source text : String) (h : n.textIn source = text)
    (hne : 0 < text.length) : n.startPosition < n.endPosition := by
  have hl := textIn_length n source
  rw [h] at hl
  omega

/-- Claim C15: with the boundary pair `(m_begin, m_end)` found, where both markers are
non-empty nodes (their texts are the marker names) and the captured node does not end
before it starts, `in_message_map?` accepts the capture when its node lies between the
end of `m_begin` and the start of `m_end`, and rejects whenever a resolved capture lies
before the begin marker or after the end marker. -/
theorem filter_in_message_map_position (qe : QueryEngine) (self : Predicates)
    (m : QueryMatch) (arguments : PredicateArguments) (m_begin m_end : Node)
    (capture : QueryMatch.Capture)
    (h : findCache (findMessageMap qe self).m_caches = some (m_begin, m_end))
    (hbegin : m_begin.startPosition < m_begin.endPosition)
    (hend : m_end.startPosition < m_end.endPosition)
    (hnode : capture.node.startPosition ≤ capture.node.endPosition)
    (hmem : MatchedArgument.capture capture ∈ matchArguments m arguments) :
    (matchArguments m arguments = [MatchedArgument.capture capture] →
        m_begin.endPosition ≤ capture.node.startPosition →
        capture.node.endPosition ≤ m_end.startPosition →
        (filter_in_message_map qe self m arguments).1 = true)
    ∧ (capture.node.endPosition ≤ m_begin.startPosition →
        (filter_in_message_map qe self m arguments).1 = false)
    ∧ (m_end.endPosition ≤ capture.node.startPosition →
        (filter_in_message_map qe self m arguments).1 = false) := by
  have key : (filter_in_message_map qe self m arguments).1
      = filter_in_message_map.loop m_begin m_end (matchArguments m arguments) := by
    simp [filter_in_message_map, h]
  have hrej : ¬ (m_begin.endPosition ≤ capture.node.startPosition
        ∧ capture.node.endPosition ≤ m_end.startPosition) →
      (filter_in_message_map qe self m arguments).1 = false := by
    intro hout
    rw [key]
    cases hl : filter_in_message_map.loop m_begin m_end (matchArguments m arguments) with
    | false => rfl
    | true =>
      obtain ⟨c, hc, h1, h2⟩ :=
        (filter_in_message_map_loop_iff m_begin m_end _).1 hl _ hmem
      cases hc
      exact absurd ⟨h1, h2⟩ hout
  refine ⟨?_, ?_, ?_⟩
  · intro hm h1 h2
    rw [key, filter_in_message_map_loop_iff, hm]
    intro value hv
    simp only [List.mem_singleton] at hv
    exact ⟨capture, hv, h1, h2⟩
  · intro hbefore
    apply hrej
    rintro ⟨h1, -⟩
    omega
  · intro hafter
    apply hrej
    rintro ⟨-, h2⟩
    omega

/-- Claim C15, an instance: with the markers at 7 to 24 and 45 to 60 the capture of `x`
at 4 to 5, before the begin marker, is rejected; so is the capture at 60 to 62 after
the end marker, and the capture of `ON_COMMAND` at 31 to 41 is accepted. -/
theorem filter_in_message_map_position_witness :
    findCache (findMessageMap emptyEngine cachedEvaluator).m_caches
        = some (⟨7, 24⟩, ⟨45, 60⟩)
    ∧ (filter_in_message_map emptyEngine cachedEvaluator (nodeMatch 4 5)
        [Argument.capture ⟨0⟩]).1 = false
    ∧ (filter_in_message_map emptyEngine cachedEvaluator (nodeMatch 60 62)
        [Argument.capture ⟨0⟩]).1 = false
    ∧ (filter_in_message_map emptyEngine cachedEvaluator (nodeMatch 31 41)
        [Argument.capture ⟨0⟩]).1 = true :=
  ⟨by decide,
   (filter_in_message_map_position emptyEngine cachedEvaluator (nodeMatch 4 5)
      [Argument.capture ⟨0⟩] ⟨7, 24⟩ ⟨45, 60⟩ ⟨0, ⟨4, 5⟩⟩
      (by decide) (by decide) (by decide) (by decide) (by decide)).2.1 (by decide),
   (filter_in_message_map_position emptyEngine cachedEvaluator (nodeMatch 60 62)
      [Argument.capture ⟨0⟩] ⟨7, 24⟩ ⟨45, 60⟩ ⟨0, ⟨60, 62⟩⟩
      (by decide) (by decide) (by decide) (by decide) (by decide)).2.2 (by decide),
   (filter_in_message_map_position emptyEngine cachedEvaluator (nodeMatch 31 41)
      [Argument.capture ⟨0⟩] ⟨7, 24⟩ ⟨45, 60⟩ ⟨0, ⟨31, 41⟩⟩
      (by decide) (by decide) (by decide) (by decide) (by decide)).1
      (by decide) (by decide) (by decide)⟩

/-! ## The cache store -/

theorem findMessageMap_caches (qe : QueryEngine) (self : Predicates) :
    (findMessageMap qe self).m_caches = self.m_caches
    ∨ (self.m_caches = [] ∧ ∃ cache, (findMessageMap qe self).m_caches = [cache]) := by
  obtain ⟨source, root, caches⟩ := self
  cases hc : findCache caches with
  | some pair => exact Or.inl (by simp only [findMessageMap, hc])
  | none =>
    have hnil := (findCache_eq_none _).1 hc
    subst hnil
    cases root with
    | none => exact Or.inl (by simp only [findMessageMap, hc])
    | some rootNode =>
      cases hn : qe.nextMatch source rootNode with
      | none => exact Or.inl (by simp only [findMessageMap, hc, hn])
      | some found =>
        cases hb : qe.capturesNamed found "begin" with
        | nil => exact Or.inl (by simp only [findMessageMap, hc, hn, hb])
        | cons b bs =>
          cases he : qe.capturesNamed found "end" with
          | nil => exact Or.inl (by simp only [findMessageMap, hc, hn, hb, he])
          | cons e es =>
            refine Or.inr ⟨rfl, PredicateCache.MessageMapCache b.node e.node, ?_⟩
            simp only [findMessageMap, hc, hn, hb, he, insertCache, List.nil_append]

theorem near_caches_length (qe : QueryEngine) (self later : Predicates)
    (h : Near qe self later) (hlen : self.m_caches.length ≤ 1) :
    later.m_caches.length ≤ 1 := by
  rcases h with h | h
  · rw [h]
    exact hlen
  · rw [h]
    rcases findMessageMap_caches qe self with hc | ⟨-, cache, hc⟩
    · rw [hc]
      exact hlen
    · rw [hc]
      simp

theorem reachable_caches_length (self : Predicates) (h : Reachable self) :
    self.m_caches.length ≤ 1 := by
  induction h with
  | create source => simp [Predicates.create]
  | setRootNode self node _ ih => exact ih
  | filterMatch rx qe self m accepted self1 _ hfm ih =>
    simp only [filterMatch] at hfm
    cases hp : m.query.patterns[m.patternIndex]? with
    | none =>
      rw [hp] at hfm
      cases hfm
    | some pattern =>
      rw [hp] at hfm
      simp only [Option.some.injEq] at hfm
      have hnear := (loop_near rx qe m pattern.predicates self self (Or.inl rfl)).2
      rw [hfm] at hnear
      exact near_caches_length qe self self1 hnear ih

theorem inMessageMapRun_of_cached (qe : QueryEngine) (self : Predicates) (pair : Node × Node)
    (h : findCache self.m_caches = some pair) (calls : List (QueryMatch × PredicateArguments)) :
    (inMessageMapRun qe self calls).2 = self := by
  induction calls with
  | nil => rfl
  | cons call rest ih =>
    obtain ⟨m, arguments⟩ := call
    simp only [inMessageMapRun, filter_in_message_map_snd,
      findMessageMap_of_cached qe self pair h]
    exact ih

/-- Claim C16: once the cache store holds a boundary pair, `findMessageMap` returns the
evaluator as it is whatever the query engine would answer, every `in_message_map?`
invocation works with that pair and leaves the store unchanged, also over a series of
invocations; and the store of an evaluator that a caller can bring about never holds
more than one entry. -/
theorem boundary_pair_cached_once (self : Predicates) :
    (∀ pair, findCache self.m_caches = some pair →
        (∀ qe, findMessageMap qe self = self)
        ∧ (∀ qe m arguments, filter_in_message_map qe self m arguments
            = (filter_in_message_map.loop pair.1 pair.2 (matchArguments m arguments), self))
        ∧ (∀ qe calls, (inMessageMapRun qe self calls).2 = self))
    ∧ (Reachable self → self.m_caches.length ≤ 1) := by
  refine ⟨?_, reachable_caches_length self⟩
  intro pair h
  refine ⟨fun qe => findMessageMap_of_cached qe self pair h, ?_,
    fun qe calls => inMessageMapRun_of_cached qe self pair h calls⟩
  intro qe m arguments
  have h1 := filter_in_message_map_fst qe self m arguments
  have h2 := filter_in_message_map_snd qe self m arguments
  rw [findMessageMap_of_cached qe self pair h] at h1 h2
  rw [h] at h1
  exact Prod.ext h1 h2

/-- Claim C16, an instance: the evaluator that the first invocation left holds one pair;
on it an engine whose query has no match changes nothing, and the capture of
`ON_COMMAND` is still accepted with the pair first cached. -/
theorem boundary_pair_cached_once_witness :
    findCache (findMessageMap sampleEngine sampleEvaluator).m_caches
        = some (⟨0, 17⟩, ⟨38, 53⟩)
    ∧ Reachable (findMessageMap sampleEngine sampleEvaluator)
    ∧ (findMessageMap sampleEngine sampleEvaluator).m_caches.length ≤ 1
    ∧ filter_in_message_map emptyEngine (findMessageMap sampleEngine sampleEvaluator)
          commandMatch [Argument.capture ⟨0⟩]
        = (true, findMessageMap sampleEngine sampleEvaluator) :=
  have hreach : Reachable (findMessageMap sampleEngine sampleEvaluator) :=
    Reachable.filterMatch plainEngine sampleEngine sampleEvaluator commandQueryMatch true _
      (Reachable.setRootNode _ _ (Reachable.create sampleSource)) (by decide)
  ⟨by decide, hreach,
   (boundary_pair_cached_once (findMessageMap sampleEngine sampleEvaluator)).2 hreach,
   ((boundary_pair_cached_once (findMessageMap sampleEngine sampleEvaluator)).1
      (⟨0, 17⟩, ⟨38, 53⟩) (by decide)).2.1 emptyEngine commandMatch [Argument.capture ⟨0⟩]⟩

/-- Claim C17: when an `in_message_map?` invocation finds no boundary pair, it returns
`false` and leaves the evaluator, cache store included, exactly as it was; the next
invocation is therefore a first invocation again: it asks the query engine, and when
the query now has a match with both markers, that pair is the one it caches. -/
theorem negative_result_not_memoized (qe : QueryEngine) (self : Predicates) (m : QueryMatch)
    (arguments : PredicateArguments)
    (hnone : findCache (findMessageMap qe self).m_caches = none) :
    filter_in_message_map qe self m arguments = (false, self)
    ∧ self.m_caches = []
    ∧ (∀ qe2 m2 arguments2,
        filter_in_message_map qe2 (filter_in_message_map qe self m arguments).2 m2 arguments2
          = filter_in_message_map qe2 self m2 arguments2)
    ∧ (∀ qe2 m2 arguments2 rootNode found b bs e es,
        self.m_rootNode = some rootNode →
        qe2.nextMatch self.m_source rootNode = some found →
        qe2.capturesNamed found "begin" = b :: bs →
        qe2.capturesNamed found "end" = e :: es →
        (filter_in_message_map qe2 (filter_in_message_map qe self m arguments).2
            m2 arguments2).2.m_caches
          = [PredicateCache.MessageMapCache b.node e.node]) := by
  have hself : findMessageMap qe self = self := by
    rcases findMessageMap_cases qe self with h | ⟨pair, h⟩
    · exact h
    · rw [h] at hnone
      cases hnone
  have hnil : self.m_caches = [] := by
    rw [hself] at hnone
    exact (findCache_eq_none _).1 hnone
  have hres : filter_in_message_map qe self m arguments = (false, self) := by
    have h1 := filter_in_message_map_fst qe self m arguments
    have h2 := filter_in_message_map_snd qe self m arguments
    rw [hnone] at h1
    rw [hself] at h2
    exact Prod.ext h1 h2
  refine ⟨hres, hnil, ?_, ?_⟩
  · intro qe2 m2 arguments2
    rw [hres]
  · intro qe2 m2 arguments2 rootNode found b bs e es hr hn hb he
    rw [hres, filter_in_message_map_snd]
    obtain ⟨source, root, caches⟩ := self
    simp only at hr hn hnil
    subst hnil
    subst hr
    simp only [findMessageMap, findCache, hn, hb, he, insertCache, List.nil_append]

/-- Claim C17, an instance: after a rejected invocation on a tree without message map
the cache store is still empty, and the next invocation, on a tree with one, finds and
caches the pair. -/
theorem negative_result_not_memoized_witness :
    findCache (findMessageMap emptyEngine sampleEvaluator).m_caches = none
    ∧ filter_in_message_map emptyEngine sampleEvaluator commandMatch [Argument.capture ⟨0⟩]
        = (false, sampleEvaluator)
    ∧ filter_in_message_map sampleEngine
          (filter_in_message_map emptyEngine sampleEvaluator commandMatch
            [Argument.capture ⟨0⟩]).2 commandMatch [Argument.capture ⟨0⟩]
        = (true, insertCache sampleEvaluator
            (PredicateCache.MessageMapCache ⟨0, 17⟩ ⟨38, 53⟩)) :=
  ⟨by decide,
   (negative_result_not_memoized emptyEngine sampleEvaluator commandMatch
      [Argument.capture ⟨0⟩] (by decide)).1,
   by decide⟩

/-! ## The two maps of the registry -/

theorem checkFilter_match_rest_values (rest : List Argument) :
    checkFilter_match.rest rest = none
    ∨ checkFilter_match.rest rest = some "Argument is not a capture" := by
  induction rest with
  | nil => exact Or.inl rfl
  | cons argument rest ih =>
    cases argument with
    | capture c => simpa [checkFilter_match.rest] using ih
    | string s => exact Or.inr rfl

theorem checkFilter_in_message_map_loop_values (arguments : List Argument) :
    checkFilter_in_message_map.loop arguments = none
    ∨ checkFilter_in_message_map.loop arguments = some "Non-Capture Argument" := by
  induction arguments with
  | nil => exact Or.inl rfl
  | cons argument rest ih =>
    cases argument with
    | capture c => simpa [checkFilter_in_message_map.loop] using ih
    | string s => exact Or.inr rfl

theorem checkFilter_eq_known (arguments : PredicateArguments) :
    checkFilter_eq arguments ≠ some "Unknown predicate" := by
  unfold checkFilter_eq
  split
  · decide
  · exact fun h => nomatch h

theorem checkFilter_match_known (rx : RegexEngine) (arguments : PredicateArguments) :
    checkFilter_match rx arguments ≠ some "Unknown predicate" := by
  unfold checkFilter_match
  split
  · decide
  · split
    · decide
    · split
      · decide
      · rename_i rest _ _
        rcases checkFilter_match_rest_values rest with h | h
        · rw [h]
          exact fun hh => nomatch hh
        · rw [h]
          decide
    · decide

theorem checkFilter_in_message_map_known (arguments : PredicateArguments) :
    checkFilter_in_message_map arguments ≠ some "Unknown predicate" := by
  unfold checkFilter_in_message_map
  split
  · decide
  · rcases checkFilter_in_message_map_loop_values arguments with h | h
    · rw [h]
      exact fun hh => nomatch hh
    · rw [h]
      decide

theorem lookup_checkFunctions_some (name : String) (check : CheckFunction)
    (hl : filters.checkFunctions.lookup name = some check) :
    (name = "eq?" ∧ check = fun _ arguments => checkFilter_eq arguments)
    ∨ (name = "match?" ∧ check = fun rx arguments => checkFilter_match rx arguments)
    ∨ (name = "in_message_map?"
      ∧ check = fun _ arguments => checkFilter_in_message_map arguments) := by
  rw [checkFunctions_eq] at hl
  simp only [List.lookup] at hl
  cases h1 : name == "eq?" with
  | true =>
    simp only [h1, Option.some.injEq] at hl
    exact Or.inl ⟨by simpa using h1, hl.symm⟩
  | false =>
    cases h2 : name == "match?" with
    | true =>
      simp only [h1, h2, Option.some.injEq] at hl
      exact Or.inr (Or.inl ⟨by simpa using h2, hl.symm⟩)
    | false =>
      cases h3 : name == "in_message_map?" with
      | true =>
        simp only [h1, h2, h3, Option.some.injEq] at hl
        exact Or.inr (Or.inr ⟨by simpa using h3, hl.symm⟩)
      | false =>
        simp only [h1, h2, h3] at hl
        cases hl

theorem lookup_none_iff (name : String) :
    (filters.checkFunctions.lookup name = none ↔ name ∉ ["eq?", "match?", "in_message_map?"])
    ∧ (filters.filterFunctions.lookup name = none
        ↔ name ∉ ["eq?", "match?", "in_message_map?"]) := by
  constructor
  · constructor
    · intro h hmem
      simp only [List.mem_cons, List.mem_singleton, List.not_mem_nil, or_false] at hmem
      rcases hmem with rfl | rfl | rfl <;> cases h
    · exact lookup_checkFunctions_none name
  · constructor
    · intro h hmem
      simp only [List.mem_cons, List.mem_singleton, List.not_mem_nil, or_false] at hmem
      rcases hmem with rfl | rfl | rfl <;> cases h
    · exact lookup_filterFunctions_none name

/-- Claim C18: the validator map and the evaluator map of the registry have the same keys,
`eq?`, `match?` and `in_message_map?`; for every predicate spec `checkPredicate` answers
`"Unknown predicate"` iff the name has no registered evaluator, in which case the
dispatch loop skips the predicate; and a predicate that `checkPredicate` lets pass has
a registered evaluator. -/
theorem registry_same_keys (rx : RegexEngine) (predicate : Query.Predicate) :
    filters.checkFunctions.map Prod.fst = ["eq?", "match?", "in_message_map?"]
    ∧ filters.filterFunctions.map Prod.fst = ["eq?", "match?", "in_message_map?"]
    ∧ (checkPredicate rx predicate = some "Unknown predicate"
        ↔ filters.filterFunctions.lookup predicate.name = none)
    ∧ (filters.filterFunctions.lookup predicate.name = none →
        ∀ qe m self rest, filterMatch.loop rx qe m self (predicate :: rest)
          = filterMatch.loop rx qe m self rest)
    ∧ (checkPredicate rx predicate = none → isRegistered predicate.name = true) := by
  have hkeys := lookup_none_iff predicate.name
  have hiff : checkPredicate rx predicate = some "Unknown predicate"
      ↔ filters.filterFunctions.lookup predicate.name = none := by
    rw [hkeys.2, ← hkeys.1]
    constructor
    · intro h
      cases hl : filters.checkFunctions.lookup predicate.name with
      | none => rfl
      | some check =>
        exfalso
        simp only [checkPredicate, hl] at h
        rcases lookup_checkFunctions_some _ _ hl with ⟨-, rfl⟩ | ⟨-, rfl⟩ | ⟨-, rfl⟩
        · exact checkFilter_eq_known _ h
        · exact checkFilter_match_known rx _ h
        · exact checkFilter_in_message_map_known _ h
    · intro h
      simp only [checkPredicate, h]
  refine ⟨rfl, rfl, hiff, ?_, ?_⟩
  · intro hl qe m self rest
    simp only [filterMatch.loop, hl]
  · intro hnone
    cases hl : filters.filterFunctions.lookup predicate.name with
    | some filterPredicate => simp only [isRegistered, hl, Option.isSome_some]
    | none =>
      rw [hiff.2 hl] at hnone
      cases hnone

/-- Claim C18, an instance: a valid `eq?` spec passes `checkPredicate` and has a registered
evaluator. -/
theorem registry_same_keys_witness :
    checkPredicate plainEngine ⟨"eq?", [Argument.capture ⟨0⟩, Argument.string "Foo"]⟩ = none
    ∧ isRegistered "eq?" = true :=
  ⟨by decide,
   (registry_same_keys plainEngine
      ⟨"eq?", [Argument.capture ⟨0⟩, Argument.string "Foo"]⟩).2.2.2.2 (by decide)⟩

/-! ## Validated `match?` arguments -/

theorem mem_matchArguments (m : QueryMatch) (arguments : PredicateArguments)
    (value : MatchedArgument) :
    value ∈ matchArguments m arguments
      ↔ ∃ argument ∈ arguments, value ∈ emission m argument := by
  rw [matchArguments_eq]
  simp only [List.mem_flatMap]

theorem mem_emission_reference (m : QueryMatch) (c : Query.Capture) (value : MatchedArgument) :
    value ∈ emission m (Argument.capture c)
      ↔ (boundCaptures m c.id = [] ∧ value = MatchedArgument.missing ⟨c⟩)
        ∨ (∃ capture ∈ boundCaptures m c.id, value = MatchedArgument.capture capture) := by
  cases hb : boundCaptures m c.id with
  | nil => simp [emission, hb]
  | cons b bs =>
    simp only [emission, hb, List.mem_map]
    constructor
    · rintro ⟨capture, hmem, rfl⟩
      exact Or.inr ⟨capture, hmem, rfl⟩
    · rintro (⟨h, -⟩ | ⟨capture, hmem, rfl⟩)
      · cases h
      · exact ⟨capture, hmem, rfl⟩

/-- Claim C19: on an argument list that `checkFilter_match` lets pass, for every match the
first resolved value is the declared regex literal, which is a valid expression, and no
later resolved value is a literal; so none of the three defensive rejections of
`filter_match` applies, and `filter_match` rejects iff a referenced capture has no
binding or the expression finds no match in the text of a bound node. -/
theorem filter_match_after_validation (rx : RegexEngine) (self : Predicates) (m : QueryMatch)
    (arguments : PredicateArguments) (hcheck : checkFilter_match rx arguments = none) :
    ∃ regexString rest, arguments = Argument.string regexString :: rest
      ∧ matchArguments m arguments
          = MatchedArgument.string regexString :: matchArguments m rest
      ∧ rx.isValid regexString = true
      ∧ (∀ value ∈ matchArguments m rest, ∀ s, value ≠ MatchedArgument.string s)
      ∧ (filter_match rx self m arguments = false
          ↔ (∃ c, Argument.capture c ∈ rest ∧ boundCaptures m c.id = [])
            ∨ (∃ capture, MatchedArgument.capture capture ∈ matchArguments m rest
                ∧ rx.hasMatch regexString (capture.node.textIn self.m_source) = false)) := by
  have hlen : ¬ arguments.length < 2 := by
    intro h
    simp [checkFilter_match, h] at hcheck
  unfold checkFilter_match at hcheck
  rw [if_neg hlen] at hcheck
  cases arguments with
  | nil => simp at hlen
  | cons first rest =>
    cases first with
    | capture c =>
      simp only at hcheck
      cases hcheck
    | string regexString =>
      simp only at hcheck
      have hvalid : rx.isValid regexString = true := by
        cases hv : rx.isValid regexString with
        | true => rfl
        | false =>
          rw [hv] at hcheck
          simp only [Bool.not_false, if_true] at hcheck
          cases hcheck
      rw [hvalid] at hcheck
      simp only [Bool.not_true, Bool.false_eq_true, if_false] at hcheck
      have hrest : ∀ argument ∈ rest, ∃ c, argument = Argument.capture c :=
        (checkFilter_match_rest_none rest).1 hcheck
      have hm : matchArguments m (Argument.string regexString :: rest)
          = MatchedArgument.string regexString :: matchArguments m rest := by
        simp [matchArguments_eq, emission]
      have hnostring : ∀ value ∈ matchArguments m rest, ∀ s,
          value ≠ MatchedArgument.string s := by
        intro value hv s hs
        obtain ⟨argument, hmem, hval⟩ := (mem_matchArguments m rest value).1 hv
        obtain ⟨c, rfl⟩ := hrest argument hmem
        rcases (mem_emission_reference m c value).1 hval with ⟨-, h⟩ | ⟨capture, -, h⟩
        · rw [h] at hs
          cases hs
        · rw [h] at hs
          cases hs
      refine ⟨regexString, rest, rfl, hm, hvalid, hnostring, ?_⟩
      have hfm : filter_match rx self m (Argument.string regexString :: rest)
          = filter_match.rest rx self.m_source regexString (matchArguments m rest) := by
        simp only [filter_match, hlen, if_false, hm, hvalid, Bool.not_true, Bool.false_eq_true]
      rw [hfm]
      constructor
      · intro hfalse
        have hnot : ¬ ∀ value ∈ matchArguments m rest, ∃ c, value = MatchedArgument.capture c
            ∧ rx.hasMatch regexString (c.node.textIn self.m_source) = true := by
          rw [← filter_match_rest_iff, hfalse]
          simp
        push_neg at hnot
        obtain ⟨value, hv, hbad⟩ := hnot
        obtain ⟨argument, hmem, hval⟩ := (mem_matchArguments m rest value).1 hv
        obtain ⟨c, rfl⟩ := hrest argument hmem
        rcases (mem_emission_reference m c value).1 hval with ⟨hb, -⟩ | ⟨capture, -, h⟩
        · exact Or.inl ⟨c, hmem, hb⟩
        · subst h
          refine Or.inr ⟨capture, hv, ?_⟩
          cases hh : rx.hasMatch regexString (capture.node.textIn self.m_source) with
          | false => rfl
          | true => exact absurd hh (hbad capture rfl)
      · intro hreason
        cases hres : filter_match.rest rx self.m_source regexString (matchArguments m rest) with
        | false => rfl
        | true =>
          exfalso
          have hall := (filter_match_rest_iff rx self.m_source regexString _).1 hres
          rcases hreason with ⟨c, hmem, hb⟩ | ⟨capture, hv, hno⟩
          · have hmiss : MatchedArgument.missing ⟨c⟩ ∈ matchArguments m rest :=
              (mem_matchArguments m rest _).2
                ⟨Argument.capture c, hmem, (mem_emission_reference m c _).2 (Or.inl ⟨hb, rfl⟩)⟩
            obtain ⟨c2, hc2, -⟩ := hall _ hmiss
            cases hc2
          · obtain ⟨c2, hc2, hyes⟩ := hall _ hv
            cases hc2
            rw [hno] at hyes
            cases hyes

/-- Claim C19, an instance: the validated arguments `Foo` and a reference to slot 0 over
a match that does not bind slot 0 are rejected, and the reason is the missing binding. -/
theorem filter_match_after_validation_witness :
    checkFilter_match plainEngine [Argument.string "Foo", Argument.capture ⟨0⟩] = none
    ∧ filter_match plainEngine fooBarEvaluator emptyMatch
        [Argument.string "Foo", Argument.capture ⟨0⟩] = false
    ∧ ∃ regexString rest,
        [Argument.string "Foo", Argument.capture ⟨0⟩] = Argument.string regexString :: rest
        ∧ matchArguments emptyMatch [Argument.string "Foo", Argument.capture ⟨0⟩]
            = MatchedArgument.string regexString :: matchArguments emptyMatch rest
        ∧ plainEngine.isValid regexString = true
        ∧ (∀ value ∈ matchArguments emptyMatch rest, ∀ s, value ≠ MatchedArgument.string s)
        ∧ (filter_match plainEngine fooBarEvaluator emptyMatch
              [Argument.string "Foo", Argument.capture ⟨0⟩] = false
            ↔ (∃ c, Argument.capture c ∈ rest ∧ boundCaptures emptyMatch c.id = [])
              ∨ (∃ capture, MatchedArgument.capture capture ∈ matchArguments emptyMatch rest
                  ∧ plainEngine.hasMatch regexString
                      (capture.node.textIn fooBarEvaluator.m_source) = false)) :=
  ⟨by decide, by decide,
   filter_match_after_validation plainEngine fooBarEvaluator emptyMatch
      [Argument.string "Foo", Argument.capture ⟨0⟩] (by decide)⟩

/-! ## Order and repetition of the arguments of `eq?` -/

theorem filter_eq_decide (self : Predicates) (m : QueryMatch) (arguments : PredicateArguments) :
    filter_eq self m arguments
      = decide (((matchArguments m arguments).map
          (argumentText self.m_source)).toFinset.card = 1) := by
  obtain ⟨h1, h2⟩ := collect_spec self.m_source (matchArguments m arguments) [] List.nodup_nil
  have h3 := List.toFinset_card_of_nodup h1
  rw [h2] at h3
  simp only [List.toFinset_nil, Finset.empty_union] at h3
  simp only [filter_eq, h3]
  by_cases h : (filter_eq.collect self.m_source (matchArguments m arguments) []).length = 1
  · simp [h]
  · simp [h]

theorem texts_same_members (source : String) (m : QueryMatch)
    (arguments arguments2 : PredicateArguments)
    (h : ∀ argument, argument ∈ arguments ↔ argument ∈ arguments2) :
    ((matchArguments m arguments).map (argumentText source)).toFinset
      = ((matchArguments m arguments2).map (argumentText source)).toFinset := by
  ext text
  simp only [List.mem_toFinset, List.mem_map, mem_matchArguments]
  constructor
  · rintro ⟨value, ⟨argument, hmem, hval⟩, rfl⟩
    exact ⟨value, ⟨argument, (h argument).1 hmem, hval⟩, rfl⟩
  · rintro ⟨value, ⟨argument, hmem, hval⟩, rfl⟩
    exact ⟨value, ⟨argument, (h argument).2 hmem, hval⟩, rfl⟩

theorem filter_eq_same_members (self : Predicates) (m : QueryMatch)
    (arguments arguments2 : PredicateArguments)
    (h : ∀ argument, argument ∈ arguments ↔ argument ∈ arguments2) :
    filter_eq self m arguments2 = filter_eq self m arguments := by
  rw [filter_eq_decide, filter_eq_decide, texts_same_members self.m_source m arguments arguments2 h]

/-- Claim C20: for every match, `filter_eq` gives the same result on an argument list, on
any permutation of it, and on any list that repeats, at any place, an argument the list
already holds. -/
theorem filter_eq_order_repetition (self : Predicates) (m : QueryMatch)
    (arguments : PredicateArguments) :
    (∀ permuted, arguments.Perm permuted →
        filter_eq self m permuted = filter_eq self m arguments)
    ∧ (∀ before argument after, arguments = before ++ after → argument ∈ arguments →
        filter_eq self m (before ++ argument :: after) = filter_eq self m arguments) := by
  constructor
  · intro permuted hperm
    exact filter_eq_same_members self m arguments permuted (fun argument => hperm.mem_iff)
  · intro before argument after hsplit hmem
    apply filter_eq_same_members
    intro other
    subst hsplit
    simp only [List.mem_append, List.mem_cons] at hmem ⊢
    constructor
    · rintro (h | h)
      · exact Or.inl h
      · exact Or.inr (Or.inr h)
    · rintro (h | h | h)
      · exact Or.inl h
      · rw [h]
        exact hmem
      · exact Or.inr h

/-- Claim C20, an instance: over the source `Foo Bar Foo` the reference to slot 0 and the
literal `Foo` are accepted in either order and with the literal repeated. -/
theorem filter_eq_order_repetition_witness :
    [Argument.capture ⟨0⟩, Argument.string "Foo"].Perm
        [Argument.string "Foo", Argument.capture ⟨0⟩]
    ∧ filter_eq fooBarEvaluator (eqFooMatch 0 3) [Argument.capture ⟨0⟩, Argument.string "Foo"]
        = true
    ∧ filter_eq fooBarEvaluator (eqFooMatch 0 3) [Argument.string "Foo", Argument.capture ⟨0⟩]
        = filter_eq fooBarEvaluator (eqFooMatch 0 3)
            [Argument.capture ⟨0⟩, Argument.string "Foo"]
    ∧ filter_eq fooBarEvaluator (eqFooMatch 0 3)
          [Argument.capture ⟨0⟩, Argument.string "Foo", Argument.string "Foo"]
        = filter_eq fooBarEvaluator (eqFooMatch 0 3)
            [Argument.capture ⟨0⟩, Argument.string "Foo"] :=
  ⟨List.Perm.swap _ _ _, by decide,
   (filter_eq_order_repetition fooBarEvaluator (eqFooMatch 0 3)
      [Argument.capture ⟨0⟩, Argument.string "Foo"]).1 _ (List.Perm.swap _ _ _),
   (filter_eq_order_repetition fooBarEvaluator (eqFooMatch 0 3)
      [Argument.capture ⟨0⟩, Argument.string "Foo"]).2
      [Argument.capture ⟨0⟩, Argument.string "Foo"] (Argument.string "Foo") [] (by simp)
      (by simp)⟩

end treesitter
